import Mathlib

/-!
A verification development for the relevance vector machine regression code in
`rvm.py` (classes `BaseRVM` and `RVR`).

The numerical state of the Python code (numpy arrays of floats) is embedded
with rational numbers: vectors are `List ℚ` and matrices are `List (List ℚ)`
(lists of rows), mirroring numpy's row-major layout.  Elementwise numpy
operations become `List.zipWith`/`List.map`, boolean-mask indexing becomes
`maskL`, and `np.linalg.inv` becomes an executable adjugate-based inverse
`invL`, which is proved to agree with Mathlib's matrix inverse.  Exceptions
raised by numpy (singular matrix in `np.linalg.inv`, mismatched boolean index
lengths, `np.amax` of an empty array) are embedded as `Option`/`Except`
failures.  Division in ℚ is total with `x / 0 = 0`; each place where the
Python code can divide by zero is marked in the comments of the corresponding
definition.
-/

/-- Vectors (1-d numpy arrays) as lists of rationals. -/
abbrev QVec := List ℚ

/-- Matrices (2-d numpy arrays) as lists of rows. -/
abbrev QMat := List (List ℚ)

/-- Dot product of two vectors (`np.dot` on 1-d arrays). -/
def dotL (a b : QVec) : ℚ := (List.zipWith (· * ·) a b).sum

/-- Matrix–vector product (`np.dot(A, v)`). -/
def matVecL (A : QMat) (v : QVec) : QVec := A.map (fun r => dotL r v)

/-- Transpose of a rectangular matrix (`A.T`); the column count is read off
the first row. -/
def transposeL (A : QMat) : QMat :=
  (List.range (A.headD []).length).map (fun j => A.map (fun r => r.getD j 0))

/-- Matrix–matrix product (`np.dot(A, B)`). -/
def matMulL (A B : QMat) : QMat :=
  let Bt := transposeL B
  A.map (fun r => Bt.map (fun c => dotL r c))

/-- Entrywise sum of two matrices (`A + B`). -/
def matAddL (A B : QMat) : QMat := List.zipWith (List.zipWith (· + ·)) A B

/-- Scalar multiple of a matrix (`c * A`). -/
def smulMatL (c : ℚ) (A : QMat) : QMat := A.map (fun r => r.map (c * ·))

/-- Scalar multiple of a vector (`c * v`). -/
def smulVecL (c : ℚ) (v : QVec) : QVec := v.map (c * ·)

/-- `np.diag(v)` for a vector: the square diagonal matrix with `v` on the
diagonal. -/
def diagL (v : QVec) : QMat :=
  (List.range v.length).map (fun i =>
    (List.range v.length).map (fun j => if i = j then v.getD i 0 else 0))

/-- `np.diag(A)` for a matrix: its diagonal as a vector. -/
def diagOfL (A : QMat) : QVec := A.enum.map (fun p => p.2.getD p.1 0)

/-- Boolean-mask indexing `xs[keep]` along one axis, for masks whose length
matches the axis (numpy raises `IndexError` otherwise; the guard is placed at
the call sites that can be reached with a mismatched mask). -/
def maskL (keep : List Bool) (xs : List α) : List α :=
  (List.zip keep xs).filterMap (fun p => if p.1 then some p.2 else none)

/-- `np.amax (np.absolute (a - b))`; `none` on an empty array, where numpy
raises `ValueError`. -/
def amaxAbsDiff (a b : QVec) : Option ℚ :=
  match List.zipWith (fun x y => |x - y|) a b with
  | [] => none
  | x :: xs => some (xs.foldl max x)

/-- A list matrix read as a Mathlib matrix (out-of-range entries default
to `0`). -/
def toMatQ (m k : ℕ) (A : QMat) : Matrix (Fin m) (Fin k) ℚ :=
  Matrix.of fun i j => ((A.getD (i : ℕ) []).getD (j : ℕ) 0)

/-- A list vector read as a Mathlib vector. -/
def toVecQ (k : ℕ) (v : QVec) : Fin k → ℚ := fun i => v.getD (i : ℕ) 0

/-- A matrix is well formed with `m` rows and `k` columns. -/
def WF (m k : ℕ) (A : QMat) : Prop := A.length = m ∧ ∀ r ∈ A, r.length = k

instance (m k : ℕ) (A : QMat) : Decidable (WF m k A) := by
  unfold WF; infer_instance

/-! ### Executable determinant, adjugate and inverse

`detL` is Laplace expansion along the first row; `adjL` is the adjugate
written with cofactors; `invL A = (detL A)⁻¹ • adjL A`.  These are executable
by kernel reduction, and are proved below to agree with Mathlib's `Matrix.det`,
`Matrix.adjugate` and `Matrix.inv` on well-formed square list matrices. -/

/-- Delete row `r` and column `c` of a list matrix. -/
def minorL (A : QMat) (r c : ℕ) : QMat := (A.eraseIdx r).map (fun row => row.eraseIdx c)

/-- Determinant by Laplace expansion along the first row, with a fuel
argument (the row count) so that the recursion is structural and the
definition evaluates by kernel reduction. -/
def detLAux : ℕ → QMat → ℚ
  | _, [] => 1
  | 0, _ :: _ => 1
  | fuel + 1, r :: rest =>
      (((List.range (rest.length + 1)).map
        (fun j => (-1 : ℚ) ^ j * r.getD j 0 *
          detLAux fuel (rest.map (fun row => row.eraseIdx j)))).sum)

/-- Determinant of a square list matrix. -/
def detL (A : QMat) : ℚ := detLAux A.length A

/-- Adjugate with entry `(i, j)` the `(j, i)` cofactor. -/
def adjL (A : QMat) : QMat :=
  (List.range A.length).map (fun i =>
    (List.range A.length).map (fun j => (-1 : ℚ) ^ (i + j) * detL (minorL A j i)))

/-- Executable matrix inverse `(detL A)⁻¹ • adjL A`. -/
def invL (A : QMat) : QMat := smulMatL (detL A)⁻¹ (adjL A)

/-! ### Data model -/

/-- Configuration attributes set by `BaseRVM.__init__` (lines 46-67):
parameters are copied to object properties, with no validation. -/
structure Config where
  n_iter : ℕ
  tol : ℚ
  alpha : ℚ
  threshold_alpha : ℚ
  beta : ℚ
  beta_fixed : Bool
  bias_used : Bool
  verbose : Bool
  verb_freq : ℕ
deriving DecidableEq

/-- The default arguments of `BaseRVM.__init__`. -/
def defaultConfig : Config :=
  { n_iter := 3000, tol := 1 / 1000, alpha := 1 / 1000000,
    threshold_alpha := 1000000000, beta := 1 / 1000000, beta_fixed := false,
    bias_used := true, verbose := true, verb_freq := 10 }

/-- The per-fit attributes of the estimator (numpy arrays assigned by `fit`).
`gamma` and `sigma_` are first assigned inside the first loop iteration; they
are initialised here with `[]`, which is never read before being
overwritten. -/
structure FitState where
  phi : QMat
  labels : List String
  relevance_ : QMat
  y : QVec
  alpha_ : QVec
  beta_ : ℚ
  m_ : QVec
  alpha_old : QVec
  gamma : QVec
  sigma_ : QMat
deriving DecidableEq

/-- A model instance: configuration plus optional fitted state.  A fresh
instance has `fitted = none`: in Python the attributes `m_`, `sigma_`,
`beta_` simply do not exist before `fit` has run. -/
structure Model where
  cfg : Config
  fitted : Option FitState
  bias : Option ℚ
deriving DecidableEq

/-- A freshly constructed instance (`BaseRVM.__init__` only copies the
configuration; no fitted attributes exist). -/
def mkModel (cfg : Config) : Model := { cfg := cfg, fitted := none, bias := none }

/-- Errors surfaced by the embedded methods.  `attributeError` is Python's
built-in `AttributeError` (an attribute accessed before any assignment).
`unfittedModelError` stands for the `UnfittedModelError` class named by the
specification; no such class exists anywhere in `rvm.py` and the embedding
never produces it. -/
inductive PyError where
  | attributeError
  | unfittedModelError
deriving DecidableEq

deriving instance DecidableEq for Except

/-! ### The embedded methods -/

/-- `RVR._posterior` (lines 192-196):

    i_s = np.diag(self.alpha_) + self.beta_ * np.dot(self.phi.T, self.phi)
    self.sigma_ = np.linalg.inv(i_s)
    self.m_ = self.beta_ * np.dot(self.sigma_, np.dot(self.phi.T, self.y))

`np.linalg.inv` raises `LinAlgError` on a singular input; that is the `none`
case (in exact arithmetic, singular iff the determinant vanishes).  Only
`sigma_` and `m_` are written; the result is a function of `alpha_`, `beta_`,
`phi` and `y` alone.  `precisionL` is the local `i_s` of line 194. -/
def precisionL (s : FitState) : QMat :=
  matAddL (diagL s.alpha_) (smulMatL s.beta_ (matMulL (transposeL s.phi) s.phi))

def RVR_posterior (s : FitState) : Option FitState :=
  if detL (precisionL s) = 0 then none
  else
    some { s with
      sigma_ := invL (precisionL s),
      m_ := smulVecL s.beta_ (matVecL (invL (precisionL s))
        (matVecL (transposeL s.phi) s.y)) }

/-- Lines 151-152 of `BaseRVM.fit`:

    self.gamma = 1 - self.alpha_*np.diag(self.sigma_)
    self.alpha_ = self.gamma/(self.m_ ** 2)

The division is ℚ's total division (`x / 0 = 0`); in numpy a zero `m_` entry
instead produces `inf`/`nan` by IEEE float division (see C8). -/
def hyperUpdate (s : FitState) : FitState :=
  let gamma := List.zipWith (fun a d => 1 - a * d) s.alpha_ (diagOfL s.sigma_)
  { s with gamma := gamma,
           alpha_ := List.zipWith (fun g mi => g / mi ^ 2) gamma s.m_ }

/-- Lines 154-156 of `BaseRVM.fit`:

    if not self.beta_fixed:
        self.beta_ = (n_samples - np.sum(self.gamma))/(
            np.sum((y - np.dot(self.phi, self.m_)) ** 2))

There is no guard around the division: the quotient is always formed and
assigned.  With a zero residual sum of squares numpy produces `inf`/`nan`
(float division by zero); the ℚ embedding's total division returns `0`.
Either way `beta_` is overwritten, not kept.  `rssL` is the denominator
`np.sum((y - np.dot(self.phi, self.m_)) ** 2)`, the residual sum of
squares. -/
def rssL (s : FitState) : ℚ :=
  ((List.zipWith (fun yi fi => yi - fi) s.y (matVecL s.phi s.m_)).map (· ^ 2)).sum

/-- The `beta_` assignment of lines 154-156 (see `rssL`). -/
def betaUpdate (n_samples : ℕ) (beta_fixed : Bool) (s : FitState) : FitState :=
  if beta_fixed then s
  else { s with beta_ := ((n_samples : ℚ) - s.gamma.sum) / rssL s }

/-- The pruning mask of `BaseRVM._prune` (lines 95-101): componentwise
`alpha_ < threshold_alpha`; if no entry survives, entry `0` is forced to
`True`, and so is the last entry when the bias is in use. -/
def pruneKeep (threshold_alpha : ℚ) (bias_used : Bool) (alpha_ : QVec) : List Bool :=
  let keep := alpha_.map (fun a => decide (a < threshold_alpha))
  if keep.any id then keep
  else
    let keep1 := keep.set 0 true
    if bias_used then keep1.set (keep1.length - 1) true else keep1

/-- `BaseRVM._prune` (lines 89-115).  `none` marks the places where Python
raises: an empty `alpha_` makes `keep_alpha[0] = True` an `IndexError`, and a
boolean row index whose length differs from the number of rows of
`relevance_` is an `IndexError` in numpy boolean indexing.

The mask is applied to `alpha_`, `alpha_old`, `gamma`, `m_`, the columns of
`phi` and both axes of `sigma_`; it is applied to the ROWS of `relevance_`
(numpy's `X[mask]` indexes axis 0) after dropping its last entry when the
bias is in use (`pruneKeepRel`); and `self.labels` is not touched at all.
The only configuration attribute written is `bias_used` (line 105,
`pruneCfg`). -/
def pruneKeepRel (cfg : Config) (s : FitState) : List Bool :=
  if cfg.bias_used then (pruneKeep cfg.threshold_alpha cfg.bias_used s.alpha_).dropLast
  else pruneKeep cfg.threshold_alpha cfg.bias_used s.alpha_

/-- Line 103-105: when the bias is in use and the last mask entry is false,
`self.bias_used` is cleared; no other configuration attribute is written. -/
def pruneCfg (cfg : Config) (s : FitState) : Config :=
  if cfg.bias_used &&
      !((pruneKeep cfg.threshold_alpha cfg.bias_used s.alpha_).getD
        ((pruneKeep cfg.threshold_alpha cfg.bias_used s.alpha_).length - 1) false)
  then { cfg with bias_used := false } else cfg

/-- Lines 106-115: the mask applied to the per-basis-function state. -/
def pruneSt (cfg : Config) (s : FitState) : FitState :=
  let keep := pruneKeep cfg.threshold_alpha cfg.bias_used s.alpha_
  { s with relevance_ := maskL (pruneKeepRel cfg s) s.relevance_,
           alpha_ := maskL keep s.alpha_,
           alpha_old := maskL keep s.alpha_old,
           gamma := maskL keep s.gamma,
           phi := s.phi.map (maskL keep),
           sigma_ := maskL keep (s.sigma_.map (maskL keep)),
           m_ := maskL keep s.m_ }

def BaseRVM_prune (cfg : Config) (s : FitState) : Option (Config × FitState) :=
  if s.alpha_.isEmpty then none
  else if (pruneKeepRel cfg s).length = s.relevance_.length then
    some (pruneCfg cfg s, pruneSt cfg s)
  else none

/-- One iteration of the `fit` loop body before the convergence check
(lines 149-158): posterior, hyperparameter update, noise-precision update,
pruning.  (The `print` diagnostics of lines 160-166 write to stdout only and
change no state.) -/
def fitStep (n_samples : ℕ) (cfg : Config) (s : FitState) : Option (Config × FitState) :=
  (RVR_posterior s).bind (fun s1 =>
    BaseRVM_prune cfg (betaUpdate n_samples cfg.beta_fixed (hyperUpdate s1)))

/-- The `for i in range(self.n_iter)` loop of `fit` (lines 148-174); `fuel`
is the number of remaining iterations and `i` the Python loop index:

    delta = np.amax(np.absolute(self.alpha_ - self.alpha_old))
    if delta < self.tol and i > 1:
        break
    self.alpha_old = self.alpha_

Exhausting the budget returns the current state unchanged (no error).  On a
`break` the `alpha_old` assignment is skipped. -/
def fitLoop (n_samples : ℕ) : ℕ → ℕ → Config → FitState → Option (Config × FitState)
  | 0, _, cfg, s => some (cfg, s)
  | fuel + 1, i, cfg, s =>
      (fitStep n_samples cfg s).bind (fun p =>
        (amaxAbsDiff p.2.alpha_ p.2.alpha_old).bind (fun delta =>
          if delta < p.1.tol ∧ i > 1 then some p
          else fitLoop n_samples fuel (i + 1) p.1 { p.2 with alpha_old := p.2.alpha_ }))

/-- Modelled from the spec: the shape validation of
`sklearn.utils.validation.check_X_y` (line 129), library code not part of
this repository.  It accepts a two-dimensional `X` with consistent row
lengths, at least one sample and at least one feature, and
`len(X) == len(y)`; anything else raises. -/
def checkXy (X : QMat) (y : QVec) : Bool :=
  decide (X.length = y.length) && !X.isEmpty &&
    X.all (fun r => decide (r.length = (X.headD []).length)) && !(X.headD []).isEmpty

/-- The state initialisation of `fit` (lines 131-146): `alpha_` uniform at
`cfg.alpha`, `beta_ = cfg.beta`, `m_` zero, `alpha_old = alpha_`,
`phi = relevance_ = X`, `labels = X_labels`; the number of basis functions is
the column count of `X`. -/
def initState (cfg : Config) (X : QMat) (y : QVec) (X_labels : List String) : FitState :=
  { phi := X, labels := X_labels, relevance_ := X, y := y,
    alpha_ := List.replicate (X.headD []).length cfg.alpha,
    beta_ := cfg.beta,
    m_ := List.replicate (X.headD []).length 0,
    alpha_old := List.replicate (X.headD []).length cfg.alpha,
    gamma := [], sigma_ := [] }

/-- `BaseRVM.fit` (lines 117-181): validation, state initialisation, the
iteration loop, then `self.bias = self.m_[-1] if self.bias_used else None`.
`none` is any uncaught exception inside `fit`. -/
def BaseRVM_fit (mdl : Model) (X : QMat) (y : QVec) (X_labels : List String) :
    Option Model :=
  if checkXy X y then
    (fitLoop X.length mdl.cfg.n_iter 0 mdl.cfg (initState mdl.cfg X y X_labels)).map
      (fun p =>
        { cfg := p.1, fitted := some p.2,
          bias := if p.1.bias_used then p.2.m_.getLast? else none })
  else none

/-- `RVR.predict` (lines 198-208):

    y = np.dot(phi, self.m_)
    if eval_MSE:
        MSE = (1/self.beta_) + np.dot(phi, np.dot(self.sigma_, phi.T))
        return y, MSE[:, 0]
    else:
        return y

On an instance with no fitted state, the very first attribute access
`self.m_` raises Python's `AttributeError`; there is no `UnfittedModelError`
class anywhere in the code.  `MSE[:, 0]` is the FIRST COLUMN of the n'×n'
matrix `MSE`, not its diagonal. -/
def RVR_predict (mdl : Model) (X : QMat) (eval_MSE : Bool) :
    Except PyError (QVec × Option QVec) :=
  match mdl.fitted with
  | none => .error .attributeError
  | some s =>
      let yhat := matVecL X s.m_
      if eval_MSE then
        let MSE := matMulL X (matMulL s.sigma_ (transposeL X))
        .ok (yhat, some (MSE.map (fun row => 1 / s.beta_ + row.getD 0 0)))
      else .ok (yhat, none)

/-! ### The specification's posterior formula at the Mathlib matrix level -/

/-- The precision matrix `A = diag(alpha) + beta·(BasisMatrixᵗ·BasisMatrix)`
exactly as the specification writes it, over Mathlib matrices; `n` is the
sample count and `k` the number of retained basis functions.  The theorem for
C1 shows the code's `i_s` is carried to this matrix by `toMatQ`. -/
def specPrecision (n k : ℕ) (alpha : QVec) (beta : ℚ) (phi : QMat) :
    Matrix (Fin k) (Fin k) ℚ :=
  Matrix.diagonal (toVecQ k alpha) + beta • ((toMatQ n k phi).transpose * toMatQ n k phi)

/-! ### Concrete instances used by witnesses and counterexamples -/

/-- The state `fit` builds for `X = [[1]]`, `y = [1]` with `alpha = beta = 1`. -/
def stOne : FitState :=
  { phi := [[1]], labels := ["x1"], relevance_ := [[1]], y := [1], alpha_ := [1],
    beta_ := 1, m_ := [0], alpha_old := [1], gamma := [], sigma_ := [] }

/-- `stOne` after `_posterior`: `i_s = [[2]]`, `sigma_ = [[1/2]]`, `m_ = [1/2]`. -/
def stOnePost : FitState := { stOne with sigma_ := [[1/2]], m_ := [1/2] }

def cfgW3 : Config :=
  { n_iter := 1, tol := 1/1000, alpha := 1, threshold_alpha := 1000000000, beta := 1,
    beta_fixed := true, bias_used := false, verbose := false, verb_freq := 10 }

/-- The state after one full `fitStep` from `stOne` under `cfgW3`. -/
def stW3 : FitState :=
  { phi := [[1]], labels := ["x1"], relevance_ := [[1]], y := [1], alpha_ := [2],
    beta_ := 1, m_ := [1/2], alpha_old := [1], gamma := [1/2], sigma_ := [[1/2]] }

def cfgW5 : Config :=
  { n_iter := 5, tol := 1/1000, alpha := 1, threshold_alpha := 1, beta := 1,
    beta_fixed := true, bias_used := true, verbose := false, verb_freq := 10 }

/-- A two-basis-function state in which every `alpha_` entry fails
`alpha < threshold_alpha`, so pruning takes the forced-retention branch. -/
def stW5 : FitState :=
  { phi := [[5,7]], labels := ["x1"], relevance_ := [[5,7]], y := [1], alpha_ := [5,7],
    beta_ := 1, m_ := [2,3], alpha_old := [4,6], gamma := [1,1], sigma_ := [[1,0],[0,1]] }

def cfgC4 : Config :=
  { n_iter := 5, tol := 1/1000, alpha := 1, threshold_alpha := 2, beta := 1,
    beta_fixed := true, bias_used := false, verbose := false, verb_freq := 10 }

/-- A two-basis-function state whose second `alpha_` entry fails the mask. -/
def stC4 : FitState :=
  { phi := [[1,2]], labels := ["a","b"], relevance_ := [[1],[2]], y := [1],
    alpha_ := [1,5], beta_ := 1, m_ := [3,4], alpha_old := [1,5], gamma := [1,2],
    sigma_ := [[1,0],[0,1]] }

def cfgC5 : Config :=
  { n_iter := 1, tol := 1/1000, alpha := 1, threshold_alpha := 3, beta := 1,
    beta_fixed := true, bias_used := true, verbose := false, verb_freq := 10 }

def cfgC6 : Config :=
  { n_iter := 1, tol := 1/1000, alpha := 1, threshold_alpha := 1000000000, beta := 1,
    beta_fixed := false, bias_used := false, verbose := false, verb_freq := 10 }

def cfgC7 : Config :=
  { n_iter := 1, tol := 1/1000, alpha := 1, threshold_alpha := 1000000000, beta := 1,
    beta_fixed := true, bias_used := false, verbose := false, verb_freq := 10 }

/-- A fitted state used to exercise `predict`. -/
def stW7 : FitState :=
  { phi := [[1]], labels := ["x1"], relevance_ := [[1]], y := [1], alpha_ := [1],
    beta_ := 1, m_ := [2], alpha_old := [1], gamma := [1], sigma_ := [[1]] }

/-- A model carrying `stW7` as its fitted state. -/
def mdlW7 : Model := { cfg := defaultConfig, fitted := some stW7, bias := none }

def cfgW10 : Config :=
  { n_iter := 5, tol := 1/1000, alpha := 1, threshold_alpha := 2, beta := 1,
    beta_fixed := true, bias_used := true, verbose := false, verb_freq := 10 }

/-- A state whose bias column (the last one) fails the mask while the first
survives, so pruning clears `bias_used`. -/
def stW10 : FitState :=
  { phi := [[1,2]], labels := ["a"], relevance_ := [[1]], y := [1], alpha_ := [1,50],
    beta_ := 1, m_ := [3,4], alpha_old := [1,50], gamma := [1,2],
    sigma_ := [[1,0],[0,1]] }

/-! Intermediate states of the concrete single-iteration runs used by the
counterexamples: `..post` after `_posterior`, `..upd` after the
hyperparameter and noise updates, `..pr` after pruning, `..fin` after the
`alpha_old` assignment that ends the iteration. -/

def stW3fin : FitState := { stW3 with alpha_old := [2] }

def mdlW3fin : Model := { cfg := cfgW3, fitted := some stW3fin, bias := none }

def stC5post : FitState :=
  { phi := [[1,0,1],[0,1,1]], labels := ["x1","x2"], relevance_ := [[1,0,1],[0,1,1]],
    y := [1,1], alpha_ := [1,1,1], beta_ := 1, m_ := [1/4,1/4,1/2],
    alpha_old := [1,1,1], gamma := [],
    sigma_ := [[5/8,1/8,-1/4],[1/8,5/8,-1/4],[-1/4,-1/4,1/2]] }

def stC5upd : FitState := { stC5post with alpha_ := [6,6,2], gamma := [3/8,3/8,1/2] }

def stC5pr : FitState :=
  { phi := [[1],[1]], labels := ["x1","x2"], relevance_ := [], y := [1,1],
    alpha_ := [2], beta_ := 1, m_ := [1/2], alpha_old := [1], gamma := [1/2],
    sigma_ := [[1/2]] }

def stC5fin : FitState := { stC5pr with alpha_old := [2] }

def mdlC5fin : Model := { cfg := cfgC5, fitted := some stC5fin, bias := some (1/2) }

def stC6post : FitState :=
  { phi := [[1]], labels := ["x1"], relevance_ := [[1]], y := [0], alpha_ := [1],
    beta_ := 1, m_ := [0], alpha_old := [1], gamma := [], sigma_ := [[1/2]] }

def stC6upd : FitState := { stC6post with alpha_ := [0], beta_ := 0, gamma := [1/2] }

def stC6fin : FitState := { stC6upd with alpha_old := [0] }

def mdlC6fin : Model := { cfg := cfgC6, fitted := some stC6fin, bias := none }

def stC7post : FitState :=
  { phi := [[1,0],[0,1]], labels := ["x1","x2"], relevance_ := [[1,0],[0,1]],
    y := [1,2], alpha_ := [1,1], beta_ := 1, m_ := [1/2,1], alpha_old := [1,1],
    gamma := [], sigma_ := [[1/2,0],[0,1/2]] }

def stC7upd : FitState := { stC7post with alpha_ := [2,1/2], gamma := [1/2,1/2] }

def stC7fin : FitState := { stC7upd with alpha_old := [2,1/2] }

def mdlC7fin : Model := { cfg := cfgC7, fitted := some stC7fin, bias := none }

/-- `stC4` after pruning: the second basis function (alpha `5 ≥ 2`) is removed
from every per-basis array, `relevance_` loses its second ROW, and `labels`
is left untouched at length 2. -/
def stC4pr : FitState :=
  { phi := [[1]], labels := ["a","b"], relevance_ := [[1]], y := [1], alpha_ := [1],
    beta_ := 1, m_ := [3], alpha_old := [1], gamma := [1], sigma_ := [[1]] }

/-- `cfgW10` after a pruning pass that drops the bias column: only
`bias_used` changes. -/
def cfgW10pr : Config := { cfgW10 with bias_used := false }

/-- `stW10` after pruning with mask `[true, false]`. -/
def stW10pr : FitState :=
  { phi := [[1]], labels := ["a"], relevance_ := [[1]], y := [1], alpha_ := [1],
    beta_ := 1, m_ := [3], alpha_old := [1], gamma := [1], sigma_ := [[1]] }

/-! ### Correspondence of the list operations with Mathlib matrices -/

theorem list_sum_map_range (n : ℕ) (f : ℕ → ℚ) :
    ((List.range n).map f).sum = ∑ j ∈ Finset.range n, f j := by
  induction n with
  | zero => simp
  | succ n ih =>
      rw [List.range_succ, List.map_append, List.sum_append, ih, Finset.sum_range_succ]
      simp

theorem toMatQ_getD {m k : ℕ} {A : QMat} (i : Fin m) (j : Fin k) :
    toMatQ m k A i j = (A.getD (i : ℕ) []).getD (j : ℕ) 0 := rfl

theorem getD_eraseIdx (l : List α) (m j : ℕ) (d : α) :
    (l.eraseIdx m).getD j d = if j < m then l.getD j d else l.getD (j + 1) d := by
  induction l generalizing m j with
  | nil => simp [List.eraseIdx_nil]
  | cons x xs ih =>
      cases m with
      | zero => simp
      | succ m =>
          cases j with
          | zero => simp
          | succ j =>
              simp only [List.eraseIdx_cons_succ, List.getD_cons_succ, ih,
                Nat.succ_lt_succ_iff]

theorem getD_map (f : α → β) (l : List α) (n : ℕ) (d : α) :
    (l.map f).getD n (f d) = f (l.getD n d) := by
  induction l generalizing n with
  | nil => simp
  | cons x xs ih => cases n <;> simp [ih]

theorem getD_map_of_lt (f : α → β) (l : List α) {n : ℕ} (h : n < l.length) (d : β)
    (d0 : α) : (l.map f).getD n d = f (l.getD n d0) := by
  induction l generalizing n with
  | nil => simp at h
  | cons x xs ih =>
      cases n with
      | zero => simp
      | succ n => simpa using ih (by simpa using h)

theorem getD_range_map (f : ℕ → α) (n : ℕ) {i : ℕ} (h : i < n) (d : α) :
    ((List.range n).map f).getD i d = f i := by
  rw [getD_map_of_lt f _ (by simpa using h) d 0,
    List.getD_eq_getElem _ _ (by simpa using h), List.getElem_range]

theorem coe_succAbove {k : ℕ} (p : Fin (k + 1)) (i : Fin k) :
    ((p.succAbove i) : ℕ) = if (i : ℕ) < (p : ℕ) then (i : ℕ) else (i : ℕ) + 1 := by
  by_cases h : (i : ℕ) < (p : ℕ)
  · rw [Fin.succAbove_of_castSucc_lt _ _ (by simpa [Fin.lt_def] using h), if_pos h]
    rfl
  · rw [Fin.succAbove_of_le_castSucc _ _ (by simpa [Fin.le_def] using h), if_neg h]
    rfl

theorem toMatQ_minor {k : ℕ} (A : QMat) (rI cI : Fin (k + 1)) :
    toMatQ k k (minorL A (rI : ℕ) (cI : ℕ)) =
      (toMatQ (k + 1) (k + 1) A).submatrix rI.succAbove cI.succAbove := by
  funext a b
  show ((minorL A (rI : ℕ) (cI : ℕ)).getD (a : ℕ) []).getD (b : ℕ) 0
      = (A.getD ((rI.succAbove a : Fin (k + 1)) : ℕ) []).getD
          ((cI.succAbove b : Fin (k + 1)) : ℕ) 0
  unfold minorL
  have h1 := getD_map (fun row => List.eraseIdx row (cI : ℕ)) (A.eraseIdx (rI : ℕ)) (a : ℕ) []
  simp only [List.eraseIdx_nil] at h1
  rw [h1, getD_eraseIdx, getD_eraseIdx, coe_succAbove, coe_succAbove]
  split_ifs <;> rfl

theorem WF_minorL {k : ℕ} {A : QMat} (h : WF (k + 1) (k + 1) A) {rv cv : ℕ}
    (hr : rv < k + 1) (hc : cv < k + 1) : WF k k (minorL A rv cv) := by
  refine ⟨?_, ?_⟩
  · simp only [minorL, List.length_map]
    rw [List.length_eraseIdx_of_lt (by rw [h.1]; exact hr), h.1]
    omega
  · intro row hrow
    simp only [minorL, List.mem_map] at hrow
    obtain ⟨r', hr', rfl⟩ := hrow
    have hmem : r' ∈ A := List.mem_of_mem_eraseIdx hr'
    rw [List.length_eraseIdx_of_lt (by rw [h.2 r' hmem]; exact hc), h.2 r' hmem]
    omega

theorem detL_of_length (A : QMat) (k : ℕ) (h : A.length = k) : detL A = detLAux k A := by
  rw [detL, h]

theorem detLAux_eq (k : ℕ) : ∀ A : QMat, WF k k A → detLAux k A = (toMatQ k k A).det := by
  induction k with
  | zero =>
      intro A h
      have hA : A = [] := List.eq_nil_of_length_eq_zero h.1
      subst hA
      rw [Matrix.det_fin_zero]
      rfl
  | succ k ih =>
      intro A h
      obtain ⟨r, rest, rfl⟩ : ∃ r rest, A = r :: rest := by
        cases A with
        | nil => exact absurd h.1 (by simp)
        | cons r rest => exact ⟨r, rest, rfl⟩
      have hrest : rest.length = k := by simpa using h.1
      rw [Matrix.det_succ_row_zero]
      show (((List.range (rest.length + 1)).map
        (fun j => (-1 : ℚ) ^ j * r.getD j 0 *
          detLAux k (rest.map (fun row => row.eraseIdx j)))).sum) = _
      rw [hrest, list_sum_map_range, ← Fin.sum_univ_eq_sum_range]
      refine Finset.sum_congr rfl (fun jF _ => ?_)
      have hwf : WF k k (rest.map (fun row => row.eraseIdx (jF : ℕ))) := by
        have := WF_minorL h (Nat.succ_pos k) jF.isLt
        simpa [minorL] using this
      have hm := toMatQ_minor (r :: rest) (0 : Fin (k + 1)) jF
      simp only [Fin.val_zero, Fin.succAbove_zero] at hm
      have hmem : minorL (r :: rest) 0 (jF : ℕ) =
          rest.map (fun row => row.eraseIdx (jF : ℕ)) := rfl
      rw [hmem] at hm
      have hentry : toMatQ (k + 1) (k + 1) (r :: rest) 0 jF = r.getD (jF : ℕ) 0 := rfl
      rw [hentry, ih _ hwf, hm]

theorem detL_eq (k : ℕ) (A : QMat) (h : WF k k A) : detL A = (toMatQ k k A).det := by
  rw [detL_of_length A k h.1, detLAux_eq k A h]

theorem adjL_eq (k : ℕ) (A : QMat) (h : WF k k A) :
    toMatQ k k (adjL A) = (toMatQ k k A).adjugate := by
  cases k with
  | zero => funext i j; exact i.elim0
  | succ k =>
      funext i j
      show ((adjL A).getD (i : ℕ) []).getD (j : ℕ) 0 = _
      unfold adjL
      rw [h.1, getD_range_map _ _ i.isLt, getD_range_map _ _ j.isLt,
        Matrix.adjugate_fin_succ_eq_det_submatrix,
        detL_of_length _ k (WF_minorL h j.isLt i.isLt).1,
        detLAux_eq k _ (WF_minorL h j.isLt i.isLt), toMatQ_minor A j i,
        Nat.add_comm (i : ℕ) (j : ℕ)]

theorem toMatQ_smulMat (m k : ℕ) (c : ℚ) (A : QMat) :
    toMatQ m k (smulMatL c A) = c • toMatQ m k A := by
  funext i j
  simp only [Matrix.smul_apply, smul_eq_mul]
  show ((A.map (fun r => r.map (c * ·))).getD (i : ℕ) []).getD (j : ℕ) 0 =
    c * ((A.getD (i : ℕ) []).getD (j : ℕ) 0)
  by_cases hi : (i : ℕ) < A.length
  · rw [getD_map_of_lt _ _ hi [] []]
    by_cases hj : (j : ℕ) < (A.getD (i : ℕ) []).length
    · rw [getD_map_of_lt _ _ hj 0 0]
    · rw [List.getD_eq_default _ _ (by simpa using Nat.le_of_not_lt hj),
        List.getD_eq_default _ _ (Nat.le_of_not_lt hj), mul_zero]
  · have h1 : (A.map (fun r => r.map (c * ·))).getD (i : ℕ) [] = [] :=
      List.getD_eq_default _ _ (by simpa using Nat.le_of_not_lt hi)
    have h2 : A.getD (i : ℕ) [] = [] :=
      List.getD_eq_default _ _ (Nat.le_of_not_lt hi)
    rw [h1, h2]
    simp

theorem invL_eq (k : ℕ) (A : QMat) (h : WF k k A) :
    toMatQ k k (invL A) = (toMatQ k k A)⁻¹ := by
  rw [invL, toMatQ_smulMat, adjL_eq k A h, detL_of_length A k h.1, detLAux_eq k A h,
    Matrix.inv_def, Ring.inverse_eq_inv]

theorem WF_row_length {m k : ℕ} {A : QMat} (h : WF m k A) {i : ℕ} (hi : i < m) :
    (A.getD i []).length = k := by
  rw [List.getD_eq_getElem _ _ (by rw [h.1]; exact hi)]
  exact h.2 _ (List.getElem_mem _)

theorem getD_zipWith_of_lt (f : α → β → γ) (as : List α) (bs : List β) {n : ℕ}
    (ha : n < as.length) (hb : n < bs.length) (d : γ) (da : α) (db : β) :
    (List.zipWith f as bs).getD n d = f (as.getD n da) (bs.getD n db) := by
  induction as generalizing bs n with
  | nil => simp at ha
  | cons x xs ih =>
      cases bs with
      | nil => simp at hb
      | cons y ys =>
          cases n with
          | zero => simp
          | succ n => simpa using ih ys (by simpa using ha) (by simpa using hb)

theorem dotL_eq (p : ℕ) : ∀ a b : QVec, a.length = p → b.length = p →
    dotL a b = Matrix.dotProduct (toVecQ p a) (toVecQ p b) := by
  induction p with
  | zero =>
      intro a b ha hb
      rw [List.eq_nil_of_length_eq_zero ha, List.eq_nil_of_length_eq_zero hb]
      simp [dotL, Matrix.dotProduct]
  | succ p ih =>
      intro a b ha hb
      obtain ⟨x, xs, rfl⟩ : ∃ x xs, a = x :: xs := by
        cases a with
        | nil => exact absurd ha (by simp)
        | cons x xs => exact ⟨x, xs, rfl⟩
      obtain ⟨y, ys, rfl⟩ : ∃ y ys, b = y :: ys := by
        cases b with
        | nil => exact absurd hb (by simp)
        | cons y ys => exact ⟨y, ys, rfl⟩
      have hL : dotL (x :: xs) (y :: ys) = x * y + dotL xs ys := by
        simp [dotL]
      rw [hL, ih xs ys (by simpa using ha) (by simpa using hb)]
      simp only [Matrix.dotProduct, Fin.sum_univ_succ, toVecQ, Fin.val_zero,
        List.getD_cons_zero, Fin.val_succ, List.getD_cons_succ]

theorem toMatQ_transposeL (n k : ℕ) (A : QMat) (h : WF n k A) (hn : 0 < n) :
    toMatQ k n (transposeL A) = (toMatQ n k A).transpose := by
  funext j i
  show ((transposeL A).getD (j : ℕ) []).getD (i : ℕ) 0 = (A.getD (i : ℕ) []).getD (j : ℕ) 0
  unfold transposeL
  have hhead : (A.headD []).length = k := by
    cases A with
    | nil => rw [← h.1] at hn; exact absurd hn (by simp)
    | cons r rest => exact h.2 r (by simp)
  rw [hhead, getD_range_map _ _ j.isLt, getD_map_of_lt _ _ (by rw [h.1]; exact i.isLt) 0 []]

theorem length_transposeL (A : QMat) : (transposeL A).length = (A.headD []).length := by
  simp [transposeL]

theorem toMatQ_matMulL (m p q : ℕ) (A B : QMat) (hA : WF m p A) (hB : WF p q B)
    (hp : 0 < p) : toMatQ m q (matMulL A B) = toMatQ m p A * toMatQ p q B := by
  funext i j
  rw [Matrix.mul_apply]
  have hheadB : (B.headD []).length = q := by
    cases B with
    | nil => rw [← hB.1] at hp; exact absurd hp (by simp)
    | cons r rest => exact hB.2 r (by simp)
  show ((List.map (fun r => (transposeL B).map (fun c => dotL r c)) A).getD (i : ℕ) []).getD
      (j : ℕ) 0 = _
  rw [getD_map_of_lt _ _ (by rw [hA.1]; exact i.isLt) [] []]
  rw [getD_map_of_lt _ _ (by rw [length_transposeL, hheadB]; exact j.isLt) 0 []]
  show dotL (A.getD (i : ℕ) []) ((transposeL B).getD (j : ℕ) []) = _
  unfold transposeL
  rw [hheadB, getD_range_map _ _ j.isLt]
  rw [dotL_eq p _ _ (WF_row_length hA i.isLt) (by simp [hB.1])]
  refine Finset.sum_congr rfl (fun l _ => ?_)
  simp only [toVecQ, toMatQ, Matrix.of_apply]
  rw [getD_map_of_lt _ _ (by rw [hB.1]; exact l.isLt) 0 []]

theorem toVecQ_matVecL (m p : ℕ) (A : QMat) (v : QVec) (hA : WF m p A)
    (hv : v.length = p) : toVecQ m (matVecL A v) = (toMatQ m p A).mulVec (toVecQ p v) := by
  funext i
  show (A.map (fun r => dotL r v)).getD (i : ℕ) 0 = _
  rw [getD_map_of_lt _ _ (by rw [hA.1]; exact i.isLt) 0 []]
  rw [dotL_eq p _ _ (WF_row_length hA i.isLt) hv]
  rfl

theorem toVecQ_smulVecL (k : ℕ) (c : ℚ) (v : QVec) :
    toVecQ k (smulVecL c v) = c • toVecQ k v := by
  funext i
  show (v.map (c * ·)).getD (i : ℕ) 0 = c * v.getD (i : ℕ) 0
  by_cases hi : (i : ℕ) < v.length
  · rw [getD_map_of_lt _ _ hi 0 0]
  · rw [List.getD_eq_default _ _ (by simpa using Nat.le_of_not_lt hi),
      List.getD_eq_default _ _ (Nat.le_of_not_lt hi), mul_zero]

theorem toMatQ_matAddL (m k : ℕ) (A B : QMat) (hA : WF m k A) (hB : WF m k B) :
    toMatQ m k (matAddL A B) = toMatQ m k A + toMatQ m k B := by
  funext i j
  rw [Matrix.add_apply]
  show ((List.zipWith (List.zipWith (· + ·)) A B).getD (i : ℕ) []).getD (j : ℕ) 0 = _
  rw [getD_zipWith_of_lt _ _ _ (by rw [hA.1]; exact i.isLt) (by rw [hB.1]; exact i.isLt)
    [] [] []]
  rw [getD_zipWith_of_lt _ _ _ (by rw [WF_row_length hA i.isLt]; exact j.isLt)
    (by rw [WF_row_length hB i.isLt]; exact j.isLt) 0 0 0]
  rfl

theorem toMatQ_diagL (k : ℕ) (v : QVec) (hv : v.length = k) :
    toMatQ k k (diagL v) = Matrix.diagonal (toVecQ k v) := by
  funext i j
  rw [Matrix.diagonal_apply]
  show ((diagL v).getD (i : ℕ) []).getD (j : ℕ) 0 = _
  unfold diagL
  rw [hv, getD_range_map _ _ i.isLt, getD_range_map _ _ j.isLt]
  simp only [Fin.val_eq_val]
  split_ifs with hij
  · rfl
  · rfl

theorem WF_adjL {k : ℕ} {A : QMat} (h : A.length = k) : WF k k (adjL A) := by
  refine ⟨by simp [adjL, h], ?_⟩
  intro r hr
  simp only [adjL, h, List.mem_map] at hr
  obtain ⟨i, _, rfl⟩ := hr
  simp

theorem WF_smulMatL {m k : ℕ} {A : QMat} (h : WF m k A) (c : ℚ) :
    WF m k (smulMatL c A) := by
  refine ⟨by simp [smulMatL, h.1], ?_⟩
  intro r hr
  simp only [smulMatL, List.mem_map] at hr
  obtain ⟨r', hr', rfl⟩ := hr
  simp [h.2 r' hr']

theorem WF_invL {k : ℕ} {A : QMat} (h : A.length = k) : WF k k (invL A) :=
  WF_smulMatL (WF_adjL h) _

/-! ### Shape and mask lemmas -/

theorem length_matMulL (A B : QMat) : (matMulL A B).length = A.length := by
  simp [matMulL]

theorem length_matAddL (A B : QMat) : (matAddL A B).length = min A.length B.length := by
  simp [matAddL]

theorem length_smulMatL (c : ℚ) (A : QMat) : (smulMatL c A).length = A.length := by
  simp [smulMatL]

theorem length_diagL (v : QVec) : (diagL v).length = v.length := by
  simp [diagL]

theorem length_invL (A : QMat) : (invL A).length = A.length := by
  simp [invL, smulMatL, adjL]

theorem length_matVecL (A : QMat) (v : QVec) : (matVecL A v).length = A.length := by
  simp [matVecL]

theorem length_smulVecL (c : ℚ) (v : QVec) : (smulVecL c v).length = v.length := by
  simp [smulVecL]

theorem length_diagOfL (A : QMat) : (diagOfL A).length = A.length := by
  simp [diagOfL]

theorem WF_transposeL {n k : ℕ} {A : QMat} (h : WF n k A) (hn : 0 < n) :
    WF k n (transposeL A) := by
  have hhead : (A.headD []).length = k := by
    cases A with
    | nil => rw [← h.1] at hn; exact absurd hn (by simp)
    | cons r rest => exact h.2 r (by simp)
  refine ⟨?_, ?_⟩
  · simp only [transposeL, List.length_map, List.length_range]
    exact hhead
  · intro r hr
    simp only [transposeL, List.mem_map] at hr
    obtain ⟨j, _, rfl⟩ := hr
    simp [h.1]

theorem WF_matMulL {m p q : ℕ} {A B : QMat} (hA : WF m p A) (hB : WF p q B)
    (hp : 0 < p) : WF m q (matMulL A B) := by
  refine ⟨by simp [matMulL, hA.1], ?_⟩
  intro r hr
  simp only [matMulL, List.mem_map] at hr
  obtain ⟨r', _, rfl⟩ := hr
  simpa using (WF_transposeL hB hp).1

theorem WF_diagL {k : ℕ} {v : QVec} (h : v.length = k) : WF k k (diagL v) := by
  refine ⟨by simp [diagL, h], ?_⟩
  intro r hr
  simp only [diagL, h, List.mem_map] at hr
  obtain ⟨i, _, rfl⟩ := hr
  simp

theorem WF_matAddL {m k : ℕ} {A B : QMat} (hA : WF m k A) (hB : WF m k B) :
    WF m k (matAddL A B) := by
  refine ⟨by simp [matAddL, hA.1, hB.1], ?_⟩
  intro r hr
  simp only [matAddL] at hr
  obtain ⟨i, hi, rfl⟩ := List.mem_iff_getElem.mp hr
  rw [List.getElem_zipWith, List.length_zipWith, hA.2 _ (List.getElem_mem _),
    hB.2 _ (List.getElem_mem _)]
  omega

theorem WF_matVecL {m p : ℕ} {A : QMat} {v : QVec} (hA : WF m p A) :
    (matVecL A v).length = m := by
  simp [matVecL, hA.1]

theorem length_maskL (keep : List Bool) (xs : List α) (h : keep.length ≤ xs.length) :
    (maskL keep xs).length = (keep.filter id).length := by
  induction keep generalizing xs with
  | nil => simp [maskL]
  | cons b bs ih =>
      cases xs with
      | nil => simp at h
      | cons x xs' =>
          have hrec := ih xs' (by simpa using h)
          cases b <;> simp [maskL, List.filter] at hrec ⊢ <;>
            simpa [maskL] using hrec

theorem mem_maskL {keep : List Bool} {xs : List α} {a : α} (h : a ∈ maskL keep xs) :
    a ∈ xs := by
  unfold maskL at h
  obtain ⟨⟨b, x⟩, hmem, hx⟩ := List.mem_filterMap.mp h
  cases b
  · simp at hx
  · simp only [if_true] at hx
    obtain rfl : x = a := by simpa using hx
    exact (List.of_mem_zip hmem).2

theorem maskL_cons (b : Bool) (bs : List Bool) (x : α) (xs : List α) :
    maskL (b :: bs) (x :: xs) = if b then x :: maskL bs xs else maskL bs xs := by
  cases b <;> simp [maskL]

theorem maskL_ne_nil : ∀ (keep : List Bool) (xs : List α) (i : ℕ),
    i < keep.length → i < xs.length → keep.getD i false = true →
    maskL keep xs ≠ []
  | [], _, i, hik, _, _ => by simp at hik
  | _ :: _, [], i, _, hix, _ => by simp at hix
  | b :: bs, x :: xs', i, hik, hix, ht => by
      rw [maskL_cons]
      cases b with
      | true => simp
      | false =>
          cases i with
          | zero => simp at ht
          | succ i =>
              simpa using maskL_ne_nil bs xs' i (by simpa using hik)
                (by simpa using hix) (by simpa using ht)

theorem getD_set_self {l : List α} {i : ℕ} (h : i < l.length) (a d : α) :
    (l.set i a).getD i d = a := by
  rw [List.getD_eq_getElem _ _ (by simpa using h)]
  simp [List.getElem_set]

theorem getD_set_ne {l : List α} {i j : ℕ} (hne : i ≠ j) (a d : α) :
    (l.set i a).getD j d = l.getD j d := by
  by_cases hj : j < l.length
  · rw [List.getD_eq_getElem _ _ (by simpa using hj), List.getD_eq_getElem _ _ hj]
    simp [List.getElem_set, hne]
  · rw [List.getD_eq_default _ _ (by simpa using Nat.le_of_not_lt hj),
      List.getD_eq_default _ _ (Nat.le_of_not_lt hj)]

theorem getD_zero_set_set (l : List Bool) (h : 0 < l.length) (j : ℕ) :
    ((l.set 0 true).set j true).getD 0 false = true := by
  by_cases hj : j = 0
  · subst hj
    exact getD_set_self (by simpa using h) _ _
  · rw [getD_set_ne (by omega), getD_set_self (by simpa using h)]

theorem length_pruneKeep (t : ℚ) (b : Bool) (al : QVec) :
    (pruneKeep t b al).length = al.length := by
  unfold pruneKeep
  by_cases hany : (al.map (fun a => decide (a < t))).any id
  · rw [if_pos hany]
    simp
  · rw [if_neg hany]
    split_ifs <;> simp

theorem pruneKeep_exists_true (t : ℚ) (b : Bool) (al : QVec) (hne : al ≠ []) :
    ∃ i, i < (pruneKeep t b al).length ∧ (pruneKeep t b al).getD i false = true := by
  have hlen : 0 < al.length := List.length_pos.mpr hne
  unfold pruneKeep
  by_cases hany : (al.map (fun a => decide (a < t))).any id
  · rw [if_pos hany]
    obtain ⟨x, hx, hid⟩ := List.any_eq_true.mp hany
    obtain ⟨i, hi, rfl⟩ := List.mem_iff_getElem.mp hx
    refine ⟨i, hi, ?_⟩
    rw [List.getD_eq_getElem _ _ hi]
    simpa using hid
  · rw [if_neg hany]
    refine ⟨0, ?_, ?_⟩
    · split_ifs <;> simpa using hlen
    · split_ifs with hb
      · exact getD_zero_set_set _ (by simpa using hlen) _
      · exact getD_set_self (by simpa using hlen) _ _

theorem pruneKeep_forced (t : ℚ) (b : Bool) (al : QVec) (hne : al ≠ [])
    (hall : ∀ a ∈ al, ¬ a < t) :
    (pruneKeep t b al).getD 0 false = true ∧
    (b = true →
      (pruneKeep t b al).getD ((pruneKeep t b al).length - 1) false = true) := by
  have hlen : 0 < al.length := List.length_pos.mpr hne
  have hany : (al.map (fun a => decide (a < t))).any id = false := by
    rw [List.any_eq_false]
    intro x hx
    obtain ⟨a, ha, rfl⟩ := List.mem_map.mp hx
    simpa using hall a ha
  have hpk : pruneKeep t b al =
      (if b then ((al.map (fun a => decide (a < t))).set 0 true).set
          ((((al.map (fun a => decide (a < t))).set 0 true)).length - 1) true
        else (al.map (fun a => decide (a < t))).set 0 true) := by
    unfold pruneKeep
    rw [if_neg (by simp [hany])]
  rw [hpk]
  constructor
  · split_ifs with hb
    · exact getD_zero_set_set _ (by simpa using hlen) _
    · exact getD_set_self (by simpa using hlen) _ _
  · intro hb
    rw [if_pos hb, List.length_set, List.length_set, List.length_set]
    refine getD_set_self ?_ _ _
    rw [List.length_set, List.length_map]
    omega

/-! ### Properties of pruning and of the fit loop -/

theorem prune_some_elim {cfg cfg' : Config} {s s' : FitState}
    (h : BaseRVM_prune cfg s = some (cfg', s')) :
    s.alpha_ ≠ [] ∧ (pruneKeepRel cfg s).length = s.relevance_.length ∧
    cfg' = pruneCfg cfg s ∧ s' = pruneSt cfg s := by
  unfold BaseRVM_prune at h
  split at h
  · exact absurd h (by simp)
  · next hemp =>
      split at h
      · next hlen =>
          have hp := Option.some.inj h
          exact ⟨by simpa using hemp, hlen, (congrArg Prod.fst hp).symm,
            (congrArg Prod.snd hp).symm⟩
      · exact absurd h (by simp)

theorem prune_some_intro (cfg : Config) (s : FitState) (hne : s.alpha_.isEmpty = false)
    (hlen : (pruneKeepRel cfg s).length = s.relevance_.length) :
    BaseRVM_prune cfg s = some (pruneCfg cfg s, pruneSt cfg s) := by
  unfold BaseRVM_prune
  rw [if_neg (by simp [hne]), if_pos hlen]

theorem prune_alpha_ne_nil {cfg cfg' : Config} {s s' : FitState}
    (h : BaseRVM_prune cfg s = some (cfg', s')) : s'.alpha_ ≠ [] := by
  obtain ⟨hne, -, -, hs⟩ := prune_some_elim h
  subst hs
  obtain ⟨i, hik, ht⟩ := pruneKeep_exists_true cfg.threshold_alpha cfg.bias_used s.alpha_ hne
  show maskL (pruneKeep cfg.threshold_alpha cfg.bias_used s.alpha_) s.alpha_ ≠ []
  exact maskL_ne_nil (pruneKeep cfg.threshold_alpha cfg.bias_used s.alpha_) s.alpha_ i hik
    (by rw [← length_pruneKeep cfg.threshold_alpha cfg.bias_used s.alpha_]; exact hik) ht

theorem prune_config {cfg cfg' : Config} {s s' : FitState}
    (h : BaseRVM_prune cfg s = some (cfg', s')) :
    cfg'.n_iter = cfg.n_iter ∧ cfg'.tol = cfg.tol ∧ cfg'.alpha = cfg.alpha ∧
    cfg'.threshold_alpha = cfg.threshold_alpha ∧ cfg'.beta = cfg.beta ∧
    cfg'.beta_fixed = cfg.beta_fixed ∧ cfg'.verbose = cfg.verbose ∧
    cfg'.verb_freq = cfg.verb_freq ∧
    cfg'.bias_used = (cfg.bias_used &&
      (pruneKeep cfg.threshold_alpha cfg.bias_used s.alpha_).getD
        ((pruneKeep cfg.threshold_alpha cfg.bias_used s.alpha_).length - 1) false) := by
  obtain ⟨-, -, hc, -⟩ := prune_some_elim h
  subst hc
  unfold pruneCfg
  split_ifs with hcond
  · simp only [Bool.and_eq_true, Bool.not_eq_true'] at hcond
    refine ⟨rfl, rfl, rfl, rfl, rfl, rfl, rfl, rfl, ?_⟩
    show false = _
    rw [hcond.2]
    simp
  · refine ⟨rfl, rfl, rfl, rfl, rfl, rfl, rfl, rfl, ?_⟩
    rcases Bool.eq_false_or_eq_true cfg.bias_used with hb | hb
    · rw [hb] at hcond ⊢
      have hL : (pruneKeep cfg.threshold_alpha true s.alpha_).getD
          ((pruneKeep cfg.threshold_alpha true s.alpha_).length - 1) false = true := by
        simpa using hcond
      rw [hL]
      rfl
    · rw [hb]
      rfl

theorem fitStep_elim {n : ℕ} {cfg : Config} {s : FitState} {p : Config × FitState}
    (h : fitStep n cfg s = some p) :
    ∃ s1, RVR_posterior s = some s1 ∧
      BaseRVM_prune cfg (betaUpdate n cfg.beta_fixed (hyperUpdate s1)) = some p := by
  unfold fitStep at h
  cases hpost : RVR_posterior s with
  | none => rw [hpost] at h; exact absurd h (by simp)
  | some s1 =>
      rw [hpost] at h
      exact ⟨s1, rfl, by simpa using h⟩

theorem fitLoop_alpha_ne_nil {n : ℕ} : ∀ {fuel i : ℕ} {cfg cfg' : Config}
    {s s' : FitState}, s.alpha_ ≠ [] → fitLoop n fuel i cfg s = some (cfg', s') →
    s'.alpha_ ≠ []
  | 0, i, cfg, cfg', s, s', hne, h => by
      unfold fitLoop at h
      obtain ⟨h1, h2⟩ := Prod.mk.injEq .. |>.mp (Option.some.inj h)
      rw [← h2]
      exact hne
  | fuel + 1, i, cfg, cfg', s, s', hne, h => by
      unfold fitLoop at h
      cases hstep : fitStep n cfg s with
      | none => rw [hstep] at h; exact absurd h (by simp)
      | some p =>
          rw [hstep] at h
          simp only [Option.some_bind] at h
          obtain ⟨s1, -, hprune⟩ := fitStep_elim hstep
          have hp2 : p.2.alpha_ ≠ [] := prune_alpha_ne_nil hprune
          cases hdelta : amaxAbsDiff p.2.alpha_ p.2.alpha_old with
          | none => rw [hdelta] at h; exact absurd h (by simp)
          | some delta =>
              rw [hdelta] at h
              simp only [Option.some_bind] at h
              split at h
              · obtain ⟨h1, h2⟩ := Prod.mk.injEq .. |>.mp (Option.some.inj h)
                rw [← h2]
                exact hp2
              · exact fitLoop_alpha_ne_nil (by simpa using hp2) h

theorem fitLoop_config {n : ℕ} : ∀ {fuel i : ℕ} {cfg cfg' : Config} {s s' : FitState},
    fitLoop n fuel i cfg s = some (cfg', s') →
    cfg'.n_iter = cfg.n_iter ∧ cfg'.tol = cfg.tol ∧ cfg'.alpha = cfg.alpha ∧
    cfg'.threshold_alpha = cfg.threshold_alpha ∧ cfg'.beta = cfg.beta ∧
    cfg'.beta_fixed = cfg.beta_fixed ∧ cfg'.verbose = cfg.verbose ∧
    cfg'.verb_freq = cfg.verb_freq ∧ (cfg'.bias_used = true → cfg.bias_used = true)
  | 0, i, cfg, cfg', s, s', h => by
      unfold fitLoop at h
      obtain ⟨h1, h2⟩ := Prod.mk.injEq .. |>.mp (Option.some.inj h)
      rw [← h1]
      exact ⟨rfl, rfl, rfl, rfl, rfl, rfl, rfl, rfl, fun hb => hb⟩
  | fuel + 1, i, cfg, cfg', s, s', h => by
      unfold fitLoop at h
      cases hstep : fitStep n cfg s with
      | none => rw [hstep] at h; exact absurd h (by simp)
      | some p =>
          rw [hstep] at h
          simp only [Option.some_bind] at h
          obtain ⟨s1, -, hprune⟩ := fitStep_elim hstep
          have hprune' : BaseRVM_prune cfg (betaUpdate n cfg.beta_fixed
              (hyperUpdate s1)) = some (p.1, p.2) := by simpa using hprune
          have hpc := prune_config hprune'
          have hmono : p.1.bias_used = true → cfg.bias_used = true := by
            intro hb
            rw [hpc.2.2.2.2.2.2.2.2] at hb
            exact (Bool.and_eq_true _ _ |>.mp hb).1
          cases hdelta : amaxAbsDiff p.2.alpha_ p.2.alpha_old with
          | none => rw [hdelta] at h; exact absurd h (by simp)
          | some delta =>
              rw [hdelta] at h
              simp only [Option.some_bind] at h
              split at h
              · obtain ⟨h1, h2⟩ := Prod.mk.injEq .. |>.mp (Option.some.inj h)
                rw [← h1]
                exact ⟨hpc.1, hpc.2.1, hpc.2.2.1, hpc.2.2.2.1, hpc.2.2.2.2.1,
                  hpc.2.2.2.2.2.1, hpc.2.2.2.2.2.2.1, hpc.2.2.2.2.2.2.2.1, hmono⟩
              · have hrec := fitLoop_config h
                exact ⟨hrec.1.trans hpc.1, hrec.2.1.trans hpc.2.1,
                  hrec.2.2.1.trans hpc.2.2.1, hrec.2.2.2.1.trans hpc.2.2.2.1,
                  hrec.2.2.2.2.1.trans hpc.2.2.2.2.1,
                  hrec.2.2.2.2.2.1.trans hpc.2.2.2.2.2.1,
                  hrec.2.2.2.2.2.2.1.trans hpc.2.2.2.2.2.2.1,
                  hrec.2.2.2.2.2.2.2.1.trans hpc.2.2.2.2.2.2.2.1,
                  fun hb => hmono (hrec.2.2.2.2.2.2.2.2 hb)⟩

theorem WF_headD_length {n k : ℕ} {A : QMat} (h : WF n k A) (hn : 0 < n) :
    (A.headD []).length = k := by
  cases hp : A with
  | nil =>
      rw [hp] at h
      rw [← h.1] at hn
      exact absurd hn (by simp)
  | cons r rest =>
      rw [hp] at h
      exact h.2 r (List.mem_cons_self r rest)

theorem RVR_posterior_some_elim {s s1 : FitState} (h : RVR_posterior s = some s1) :
    detL (precisionL s) ≠ 0 ∧
    s1 = { s with
      sigma_ := invL (precisionL s),
      m_ := smulVecL s.beta_ (matVecL (invL (precisionL s))
        (matVecL (transposeL s.phi) s.y)) } := by
  unfold RVR_posterior at h
  split at h
  · exact absurd h (by simp)
  · next hdet => exact ⟨hdet, (Option.some.inj h).symm⟩

theorem length_precisionL {s : FitState} {n : ℕ} (hphi : WF n s.alpha_.length s.phi)
    (hn : 0 < n) : (precisionL s).length = s.alpha_.length := by
  rw [precisionL, length_matAddL, length_diagL, length_smulMatL, length_matMulL,
    length_transposeL, WF_headD_length hphi hn]
  omega

theorem toMatQ_precisionL (n k : ℕ) (s : FitState)
    (hk : s.alpha_.length = k) (hphi : WF n k s.phi) (hn : 0 < n) :
    toMatQ k k (precisionL s) = specPrecision n k s.alpha_ s.beta_ s.phi := by
  have hT : WF k n (transposeL s.phi) := WF_transposeL hphi hn
  have hM : WF k k (matMulL (transposeL s.phi) s.phi) := WF_matMulL hT hphi hn
  rw [precisionL, toMatQ_matAddL k k _ _ (WF_diagL hk) (WF_smulMatL hM s.beta_),
    toMatQ_diagL k _ hk, toMatQ_smulMat, toMatQ_matMulL k n k _ _ hT hphi hn,
    toMatQ_transposeL n k _ hphi hn, specPrecision]

theorem WF_precisionL (n k : ℕ) (s : FitState)
    (hk : s.alpha_.length = k) (hphi : WF n k s.phi) (hn : 0 < n) :
    WF k k (precisionL s) :=
  WF_matAddL (WF_diagL hk)
    (WF_smulMatL (WF_matMulL (WF_transposeL hphi hn) hphi hn) s.beta_)

theorem specPrecision_symm (n k : ℕ) (alpha : QVec) (beta : ℚ) (phi : QMat) :
    (specPrecision n k alpha beta phi).transpose = specPrecision n k alpha beta phi := by
  rw [specPrecision, Matrix.transpose_add, Matrix.diagonal_transpose,
    Matrix.transpose_smul, Matrix.transpose_mul, Matrix.transpose_transpose]

/-- With all `alpha` entries positive and `beta > 0` the precision matrix is
positive definite, hence invertible: `vᵀ A v = Σ alpha_i v_i² + beta·‖Φv‖²`
is positive for `v ≠ 0`, so no nonzero kernel vector exists. -/
theorem specPrecision_det_ne_zero (n k : ℕ) (s : FitState)
    (hk : s.alpha_.length = k) (hpos : ∀ a ∈ s.alpha_, 0 < a) (hb : 0 < s.beta_) :
    (specPrecision n k s.alpha_ s.beta_ s.phi).det ≠ 0 := by
  intro hdet
  obtain ⟨v, hv, hAv⟩ := (Matrix.exists_mulVec_eq_zero_iff).mpr hdet
  have hq : Matrix.dotProduct v
      ((specPrecision n k s.alpha_ s.beta_ s.phi).mulVec v) = 0 := by
    rw [hAv]
    simp [Matrix.dotProduct]
  have hsplit : Matrix.dotProduct v
      ((specPrecision n k s.alpha_ s.beta_ s.phi).mulVec v) =
      (Finset.univ.sum fun i => toVecQ k s.alpha_ i * v i ^ 2) +
      s.beta_ * (Finset.univ.sum fun j => ((toMatQ n k s.phi).mulVec v j) ^ 2) := by
    rw [specPrecision, Matrix.add_mulVec, Matrix.dotProduct_add]
    congr 1
    · simp only [Matrix.dotProduct, Matrix.mulVec_diagonal]
      exact Finset.sum_congr rfl (fun i _ => by ring)
    · rw [Matrix.smul_mulVec_assoc, Matrix.dotProduct_smul, smul_eq_mul]
      congr 1
      rw [← Matrix.mulVec_mulVec, Matrix.dotProduct_mulVec, Matrix.vecMul_transpose]
      simp only [Matrix.dotProduct]
      exact Finset.sum_congr rfl (fun j _ => by ring)
  rw [hsplit] at hq
  obtain ⟨i0, hi0⟩ := Function.ne_iff.mp hv
  have hterm : ∀ i : Fin k, 0 ≤ toVecQ k s.alpha_ i * v i ^ 2 := by
    intro i
    have : 0 < toVecQ k s.alpha_ i := by
      apply hpos
      have : (i : ℕ) < s.alpha_.length := by rw [hk]; exact i.isLt
      rw [toVecQ, List.getD_eq_getElem _ _ this]
      exact List.getElem_mem _
    positivity
  have hpos0 : 0 < toVecQ k s.alpha_ i0 * v i0 ^ 2 := by
    have ha : 0 < toVecQ k s.alpha_ i0 := by
      apply hpos
      have : (i0 : ℕ) < s.alpha_.length := by rw [hk]; exact i0.isLt
      rw [toVecQ, List.getD_eq_getElem _ _ this]
      exact List.getElem_mem _
    have hvp : 0 < v i0 ^ 2 := by
      have : v i0 ≠ 0 := by simpa using hi0
      positivity
    positivity
  have hsum1 : 0 < Finset.univ.sum fun i => toVecQ k s.alpha_ i * v i ^ 2 :=
    Finset.sum_pos' (fun i _ => hterm i) ⟨i0, Finset.mem_univ i0, hpos0⟩
  have hsum2 : 0 ≤ s.beta_ * (Finset.univ.sum fun j =>
      ((toMatQ n k s.phi).mulVec v j) ^ 2) := by
    have h2 : 0 ≤ Finset.univ.sum fun j => ((toMatQ n k s.phi).mulVec v j) ^ 2 :=
      Finset.sum_nonneg (fun j _ => sq_nonneg _)
    positivity
  linarith

/-- Eliminate a successful `BaseRVM_fit` into its loop equation and the shape
of the returned model. -/
theorem fit_elim {mdl : Model} {X : QMat} {y : QVec} {ls : List String} {mdl2 : Model}
    (h : BaseRVM_fit mdl X y ls = some mdl2) :
    ∃ p : Config × FitState,
      fitLoop X.length mdl.cfg.n_iter 0 mdl.cfg (initState mdl.cfg X y ls) = some p ∧
      mdl2 = { cfg := p.1, fitted := some p.2,
               bias := if p.1.bias_used then p.2.m_.getLast? else none } := by
  unfold BaseRVM_fit at h
  split at h
  · cases hloop : fitLoop X.length mdl.cfg.n_iter 0 mdl.cfg (initState mdl.cfg X y ls)
      with
    | none => rw [hloop] at h; exact absurd h (by simp)
    | some p =>
        rw [hloop] at h
        exact ⟨p, rfl, (Option.some.inj (by simpa using h)).symm⟩
  · exact absurd h (by simp)

set_option maxRecDepth 1600

/-! ### Concrete run evaluations

The single steps of each concrete run are settled by `decide` and composed
with the lemmas below; evaluating a whole run in one reduction would recurse
too deeply. -/

theorem fitStep_eq (n : ℕ) (cfg : Config) (s s1 s2 : FitState)
    (pr : Config × FitState)
    (hpost : RVR_posterior s = some s1)
    (hupd : betaUpdate n cfg.beta_fixed (hyperUpdate s1) = s2)
    (hprune : BaseRVM_prune cfg s2 = some pr) :
    fitStep n cfg s = some pr := by
  unfold fitStep
  rw [hpost, Option.some_bind, hupd, hprune]

theorem prune_eq_parts (cfg : Config) (s : FitState) (cfg2 : Config) (s2 : FitState)
    (hne : s.alpha_.isEmpty = false)
    (hlen : (pruneKeepRel cfg s).length = s.relevance_.length)
    (hc : pruneCfg cfg s = cfg2) (hs : pruneSt cfg s = s2) :
    BaseRVM_prune cfg s = some (cfg2, s2) := by
  rw [prune_some_intro cfg s hne hlen, hc, hs]

theorem pruneCfg_bias_false (cfg : Config) (s : FitState) (h : cfg.bias_used = false) :
    pruneCfg cfg s = cfg := by
  unfold pruneCfg
  rw [h]
  simp

theorem fitLoop_zero (n i : ℕ) (cfg : Config) (s : FitState) :
    fitLoop n 0 i cfg s = some (cfg, s) := rfl

theorem fitLoop_succ_continue (n fuel i : ℕ) (cfg : Config) (s : FitState)
    (pr : Config × FitState) (delta : ℚ)
    (hstep : fitStep n cfg s = some pr)
    (hdelta : amaxAbsDiff pr.2.alpha_ pr.2.alpha_old = some delta)
    (hcond : ¬ (delta < pr.1.tol ∧ i > 1)) :
    fitLoop n (fuel + 1) i cfg s =
      fitLoop n fuel (i + 1) pr.1 { pr.2 with alpha_old := pr.2.alpha_ } := by
  conv_lhs => rw [fitLoop]
  rw [hstep, Option.some_bind, hdelta, Option.some_bind, if_neg hcond]

theorem fit_eq (mdl : Model) (X : QMat) (y : QVec) (ls : List String)
    (pr : Config × FitState)
    (hval : checkXy X y = true)
    (hloop : fitLoop X.length mdl.cfg.n_iter 0 mdl.cfg (initState mdl.cfg X y ls)
      = some pr) :
    BaseRVM_fit mdl X y ls = some
      { cfg := pr.1, fitted := some pr.2,
        bias := if pr.1.bias_used then pr.2.m_.getLast? else none } := by
  unfold BaseRVM_fit
  rw [if_pos hval, hloop]
  rfl

theorem fitStepW3 : fitStep 1 cfgW3 stOne = some (cfgW3, stW3) :=
  fitStep_eq 1 cfgW3 stOne stOnePost stW3 (cfgW3, stW3)
    (by with_unfolding_all decide) (by with_unfolding_all decide)
    (prune_eq_parts cfgW3 stW3 cfgW3 stW3 (by decide) (by with_unfolding_all decide)
      (pruneCfg_bias_false cfgW3 stW3 rfl) (by with_unfolding_all decide))

theorem fitLoopW3 : fitLoop 1 1 0 cfgW3 (initState cfgW3 [[1]] [1] ["x1"]) =
    some (cfgW3, stW3fin) := by
  rw [show initState cfgW3 [[1]] [1] ["x1"] = stOne from by with_unfolding_all decide,
    fitLoop_succ_continue 1 0 0 cfgW3 stOne (cfgW3, stW3) 1 fitStepW3
      (by with_unfolding_all decide) (by with_unfolding_all decide),
    fitLoop_zero]
  rfl

theorem fitW3_run : BaseRVM_fit (mkModel cfgW3) [[1]] [1] ["x1"] = some mdlW3fin :=
  fit_eq (mkModel cfgW3) [[1]] [1] ["x1"] (cfgW3, stW3fin) (by decide) fitLoopW3

/-- The forced-retention pruning pass at `stW5` (every `alpha_` entry fails
`alpha < 1`): both the first and the bias column are force-retained, so
nothing changes. -/
theorem pruneW5 : BaseRVM_prune cfgW5 stW5 = some (cfgW5, stW5) := by
  with_unfolding_all decide

/-- The pruning pass at `stW10`: the bias column fails the mask, so
`bias_used` is cleared in the configuration. -/
theorem pruneW10 : BaseRVM_prune cfgW10 stW10 = some (cfgW10pr, stW10pr) := by
  with_unfolding_all decide

theorem fitStepC5 : fitStep 2 cfgC5 (initState cfgC5 [[1,0,1],[0,1,1]] [1,1]
    ["x1","x2"]) = some (cfgC5, stC5pr) :=
  fitStep_eq 2 cfgC5 (initState cfgC5 [[1,0,1],[0,1,1]] [1,1] ["x1","x2"])
    stC5post stC5upd (cfgC5, stC5pr)
    (by with_unfolding_all decide) (by with_unfolding_all decide)
    (prune_eq_parts cfgC5 stC5upd cfgC5 stC5pr (by decide)
      (by with_unfolding_all decide)
      (by with_unfolding_all decide) (by with_unfolding_all decide))

theorem fitC5_run : BaseRVM_fit (mkModel cfgC5) [[1,0,1],[0,1,1]] [1,1] ["x1","x2"]
    = some mdlC5fin := by
  have hloop : fitLoop 2 1 0 cfgC5 (initState cfgC5 [[1,0,1],[0,1,1]] [1,1]
      ["x1","x2"]) = some (cfgC5, stC5fin) := by
    rw [fitLoop_succ_continue 2 0 0 cfgC5 (initState cfgC5 [[1,0,1],[0,1,1]] [1,1]
        ["x1","x2"]) (cfgC5, stC5pr) 1 fitStepC5
        (by with_unfolding_all decide) (by with_unfolding_all decide),
      fitLoop_zero]
    rfl
  exact fit_eq (mkModel cfgC5) [[1,0,1],[0,1,1]] [1,1] ["x1","x2"] (cfgC5, stC5fin)
    (by decide) hloop

theorem fitStepC6 : fitStep 1 cfgC6 (initState cfgC6 [[1]] [0] ["x1"])
    = some (cfgC6, stC6upd) :=
  fitStep_eq 1 cfgC6 (initState cfgC6 [[1]] [0] ["x1"]) stC6post stC6upd
    (cfgC6, stC6upd)
    (by with_unfolding_all decide) (by with_unfolding_all decide)
    (prune_eq_parts cfgC6 stC6upd cfgC6 stC6upd (by decide)
      (by with_unfolding_all decide)
      (pruneCfg_bias_false cfgC6 stC6upd rfl) (by with_unfolding_all decide))

theorem fitC6_run : BaseRVM_fit (mkModel cfgC6) [[1]] [0] ["x1"] = some mdlC6fin := by
  have hloop : fitLoop 1 1 0 cfgC6 (initState cfgC6 [[1]] [0] ["x1"]) =
      some (cfgC6, stC6fin) := by
    rw [fitLoop_succ_continue 1 0 0 cfgC6 (initState cfgC6 [[1]] [0] ["x1"])
        (cfgC6, stC6upd) 1 fitStepC6
        (by with_unfolding_all decide) (by with_unfolding_all decide),
      fitLoop_zero]
    rfl
  exact fit_eq (mkModel cfgC6) [[1]] [0] ["x1"] (cfgC6, stC6fin) (by decide) hloop

theorem fitStepC7 : fitStep 2 cfgC7 (initState cfgC7 [[1,0],[0,1]] [1,2]
    ["x1","x2"]) = some (cfgC7, stC7upd) :=
  fitStep_eq 2 cfgC7 (initState cfgC7 [[1,0],[0,1]] [1,2] ["x1","x2"])
    stC7post stC7upd (cfgC7, stC7upd)
    (by with_unfolding_all decide) (by with_unfolding_all decide)
    (prune_eq_parts cfgC7 stC7upd cfgC7 stC7upd (by decide)
      (by with_unfolding_all decide)
      (pruneCfg_bias_false cfgC7 stC7upd rfl) (by with_unfolding_all decide))

theorem fitC7_run : BaseRVM_fit (mkModel cfgC7) [[1,0],[0,1]] [1,2] ["x1","x2"]
    = some mdlC7fin := by
  have hloop : fitLoop 2 1 0 cfgC7 (initState cfgC7 [[1,0],[0,1]] [1,2]
      ["x1","x2"]) = some (cfgC7, stC7fin) := by
    rw [fitLoop_succ_continue 2 0 0 cfgC7 (initState cfgC7 [[1,0],[0,1]] [1,2]
        ["x1","x2"]) (cfgC7, stC7upd) 1 fitStepC7
        (by with_unfolding_all decide) (by with_unfolding_all decide),
      fitLoop_zero]
    rfl
  exact fit_eq (mkModel cfgC7) [[1,0],[0,1]] [1,2] ["x1","x2"] (cfgC7, stC7fin)
    (by decide) hloop

/-! ### The claims -/

/-- C1 (confirmed): whenever `_posterior` succeeds on a state whose `alpha_`
entries are positive and whose `beta_` is positive (as they are in exact
arithmetic throughout `fit`), it writes only `sigma_` and `m_`, computed from
`alpha_`, `beta_`, `phi` and `y` alone: the precision matrix
`A = diag(alpha) + beta·ΦᵀΦ` is invertible (positive definite over ℚ),
`sigma = A⁻¹`, `m = beta·A⁻¹·(Φᵀy)`, and the returned `sigma` is symmetric. -/
theorem C1_posterior (n k : ℕ) (s : FitState)
    (hk : s.alpha_.length = k) (hphi : WF n k s.phi) (hn : 0 < n)
    (hy : s.y.length = n) (hpos : ∀ a ∈ s.alpha_, 0 < a) (hb : 0 < s.beta_) :
    ∃ sig m,
      RVR_posterior s = some { s with sigma_ := sig, m_ := m } ∧
      (specPrecision n k s.alpha_ s.beta_ s.phi).det ≠ 0 ∧
      toMatQ k k sig = (specPrecision n k s.alpha_ s.beta_ s.phi)⁻¹ ∧
      toVecQ k m = s.beta_ • ((specPrecision n k s.alpha_ s.beta_ s.phi)⁻¹.mulVec
        ((toMatQ n k s.phi).transpose.mulVec (toVecQ n s.y))) ∧
      (toMatQ k k sig).transpose = toMatQ k k sig := by
  have hdetspec := specPrecision_det_ne_zero n k s hk hpos hb
  have hWFP := WF_precisionL n k s hk hphi hn
  have hP := toMatQ_precisionL n k s hk hphi hn
  have hdetL : detL (precisionL s) ≠ 0 := by
    rw [detL_eq k _ hWFP, hP]
    exact hdetspec
  have hT : WF k n (transposeL s.phi) := WF_transposeL hphi hn
  refine ⟨invL (precisionL s),
    smulVecL s.beta_ (matVecL (invL (precisionL s)) (matVecL (transposeL s.phi) s.y)),
    ?_, hdetspec, ?_, ?_, ?_⟩
  · unfold RVR_posterior
    rw [if_neg hdetL]
  · rw [invL_eq k _ hWFP, hP]
  · rw [toVecQ_smulVecL,
      toVecQ_matVecL k k _ _ (WF_invL hWFP.1) (WF_matVecL hT),
      toVecQ_matVecL k n _ _ hT hy,
      invL_eq k _ hWFP, hP, toMatQ_transposeL n k _ hphi hn]
  · rw [invL_eq k _ hWFP, hP, Matrix.transpose_nonsing_inv,
      specPrecision_symm]

/-- Witness for C1 at `stOne` (`n = k = 1`, `A = [[2]]`). -/
theorem C1_witness :
    stOne.alpha_.length = 1 ∧ WF 1 1 stOne.phi ∧ (0 : ℕ) < 1 ∧ stOne.y.length = 1 ∧
    (∀ a ∈ stOne.alpha_, 0 < a) ∧ 0 < stOne.beta_ ∧
    (∃ sig m,
      RVR_posterior stOne = some { stOne with sigma_ := sig, m_ := m } ∧
      (specPrecision 1 1 stOne.alpha_ stOne.beta_ stOne.phi).det ≠ 0 ∧
      toMatQ 1 1 sig = (specPrecision 1 1 stOne.alpha_ stOne.beta_ stOne.phi)⁻¹ ∧
      toVecQ 1 m = stOne.beta_ •
        ((specPrecision 1 1 stOne.alpha_ stOne.beta_ stOne.phi)⁻¹.mulVec
          ((toMatQ 1 1 stOne.phi).transpose.mulVec (toVecQ 1 stOne.y))) ∧
      (toMatQ 1 1 sig).transpose = toMatQ 1 1 sig) :=
  ⟨by decide, by decide, by decide, by decide, by decide, by decide,
   C1_posterior 1 1 stOne (by decide) (by decide) (by decide) (by decide) (by decide)
     (by decide)⟩

/-- C2 (confirmed): on every iteration of `fit`, lines 151-152 compute
`gamma_i = 1 − alpha_i · sigma_ii` from the pre-update `alpha_` (which
`_posterior` does not modify) and the diagonal of the freshly computed
`sigma_`, and then set the new `alpha_i` to `gamma_i / m_i²` with the freshly
computed posterior mean.  The hypothesis `m_i ≠ 0` marks the only case where
the ℚ embedding and numpy's float division differ (claim C8). -/
theorem C2_hyperparameter_update (s s1 : FitState) (n : ℕ)
    (hphi : WF n s.alpha_.length s.phi) (hn : 0 < n)
    (hpost : RVR_posterior s = some s1) (i : ℕ) (hi : i < s.alpha_.length)
    (_hm : s1.m_.getD i 0 ≠ 0) :
    s1.alpha_ = s.alpha_ ∧
    (hyperUpdate s1).gamma.getD i 0 =
      1 - s.alpha_.getD i 0 * (diagOfL s1.sigma_).getD i 0 ∧
    (hyperUpdate s1).alpha_.getD i 0 =
      (hyperUpdate s1).gamma.getD i 0 / (s1.m_.getD i 0) ^ 2 := by
  obtain ⟨-, hs1⟩ := RVR_posterior_some_elim hpost
  have halpha : s1.alpha_ = s.alpha_ := by rw [hs1]
  have hsig : s1.sigma_.length = s.alpha_.length := by
    rw [hs1]
    show (invL _).length = _
    rw [length_invL, length_precisionL hphi hn]
  have hm : s1.m_.length = s.alpha_.length := by
    rw [hs1]
    show (smulVecL _ (matVecL (invL _) _)).length = _
    rw [length_smulVecL, length_matVecL, length_invL, length_precisionL hphi hn]
  have hglen : i < (List.zipWith (fun a d => 1 - a * d) s1.alpha_
      (diagOfL s1.sigma_)).length := by
    rw [List.length_zipWith, halpha, length_diagOfL, hsig]
    omega
  refine ⟨halpha, ?_, ?_⟩
  · show (List.zipWith (fun a d => 1 - a * d) s1.alpha_ (diagOfL s1.sigma_)).getD i 0 = _
    rw [getD_zipWith_of_lt _ _ _ (by rw [halpha]; exact hi)
      (by rw [length_diagOfL, hsig]; exact hi) 0 0 0, halpha]
  · show (List.zipWith (fun g mi => g / mi ^ 2)
      (List.zipWith (fun a d => 1 - a * d) s1.alpha_ (diagOfL s1.sigma_)) s1.m_).getD i 0
      = _
    rw [getD_zipWith_of_lt _ _ _ hglen (by rw [hm]; exact hi) 0 0 0]
    rfl

/-- Witness for C2 at the one-sample, one-basis-function state `stOne`
(`i_s = [[2]]`, `sigma_ = [[1/2]]`, `m_ = [1/2]`). -/
theorem C2_witness :
    WF 1 stOne.alpha_.length stOne.phi ∧ 0 < 1 ∧
    RVR_posterior stOne = some stOnePost ∧ 0 < stOne.alpha_.length ∧
    stOnePost.m_.getD 0 0 ≠ 0 ∧
    (stOnePost.alpha_ = stOne.alpha_ ∧
     (hyperUpdate stOnePost).gamma.getD 0 0 =
       1 - stOne.alpha_.getD 0 0 * (diagOfL stOnePost.sigma_).getD 0 0 ∧
     (hyperUpdate stOnePost).alpha_.getD 0 0 =
       (hyperUpdate stOnePost).gamma.getD 0 0 / (stOnePost.m_.getD 0 0) ^ 2) :=
  ⟨by decide, by decide, by with_unfolding_all decide, by decide,
   by with_unfolding_all decide,
   C2_hyperparameter_update stOne stOnePost 1 (by decide) (by decide)
     (by with_unfolding_all decide) 0 (by decide) (by with_unfolding_all decide)⟩

/-- C3 (confirmed): the `fit` loop stops before the budget exactly when
`delta = max |alpha_ − alpha_old|` over the retained basis functions (both
already pruned) satisfies `delta < tol` and the 0-based iteration index
exceeds 1; otherwise `alpha_old` is overwritten with the current `alpha_` and
the loop continues; and an exhausted budget (`fuel = 0`) returns the current
state as-is, not an error. -/
theorem C3_loop_termination (n_samples fuel i : ℕ) (cfg cfg' : Config)
    (s s' : FitState) (delta : ℚ)
    (hstep : fitStep n_samples cfg s = some (cfg', s'))
    (hdelta : amaxAbsDiff s'.alpha_ s'.alpha_old = some delta) :
    fitLoop n_samples 0 i cfg s = some (cfg, s) ∧
    (delta < cfg'.tol ∧ i > 1 →
      fitLoop n_samples (fuel + 1) i cfg s = some (cfg', s')) ∧
    (¬ (delta < cfg'.tol ∧ i > 1) →
      fitLoop n_samples (fuel + 1) i cfg s =
        fitLoop n_samples fuel (i + 1) cfg' { s' with alpha_old := s'.alpha_ }) := by
  refine ⟨rfl, ?_, ?_⟩
  · intro hcond
    conv_lhs => rw [fitLoop]
    rw [hstep]
    show ((amaxAbsDiff s'.alpha_ s'.alpha_old).bind fun delta =>
        if delta < cfg'.tol ∧ i > 1 then some (cfg', s')
        else fitLoop n_samples fuel (i + 1) cfg' { s' with alpha_old := s'.alpha_ }) = _
    rw [hdelta]
    simp only [Option.some_bind]
    rw [if_pos hcond]
  · intro hcond
    conv_lhs => rw [fitLoop]
    rw [hstep]
    show ((amaxAbsDiff s'.alpha_ s'.alpha_old).bind fun delta =>
        if delta < cfg'.tol ∧ i > 1 then some (cfg', s')
        else fitLoop n_samples fuel (i + 1) cfg' { s' with alpha_old := s'.alpha_ }) = _
    rw [hdelta]
    simp only [Option.some_bind]
    rw [if_neg hcond]

/-- Witness for C3: one concrete iteration from `stOne` (where
`delta = |2 − 1| = 1 ≥ tol`, so the loop continues). -/
theorem C3_witness :
    fitStep 1 cfgW3 stOne = some (cfgW3, stW3) ∧
    amaxAbsDiff stW3.alpha_ stW3.alpha_old = some 1 ∧
    (fitLoop 1 0 0 cfgW3 stOne = some (cfgW3, stOne) ∧
     ((1 : ℚ) < cfgW3.tol ∧ 0 > 1 →
       fitLoop 1 (3 + 1) 0 cfgW3 stOne = some (cfgW3, stW3)) ∧
     (¬ ((1 : ℚ) < cfgW3.tol ∧ 0 > 1) →
       fitLoop 1 (3 + 1) 0 cfgW3 stOne =
         fitLoop 1 3 (0 + 1) cfgW3 { stW3 with alpha_old := stW3.alpha_ })) := by
  have h1 : fitStep 1 cfgW3 stOne = some (cfgW3, stW3) := fitStepW3
  have h2 : amaxAbsDiff stW3.alpha_ stW3.alpha_old = some 1 := by with_unfolding_all decide
  exact ⟨h1, h2, C3_loop_termination 1 3 0 cfgW3 cfgW3 stOne stW3 1 h1 h2⟩

/-- C4 (corrected): one boolean mask (`alpha < threshold_alpha` with forced
retention) is applied to `alpha_`, `alpha_old`, `gamma`, `m_`, the COLUMNS of
`phi` and both axes of `sigma_` with matching selection, keeping those arrays
at a common length — but, contrary to the claim, `relevance_` is indexed on
its ROW axis (numpy `X[mask]`), with `keep_alpha[:-1]` when the bias is in
use, and `labels` is not touched at all, so `len(alpha) == RelevanceSet.size`
fails in general (see the counterexample). -/
theorem C4_prune_uniform_mask (cfg cfg2 : Config) (s s2 : FitState)
    (h : BaseRVM_prune cfg s = some (cfg2, s2))
    (hao : s.alpha_old.length = s.alpha_.length)
    (hg : s.gamma.length = s.alpha_.length)
    (hm : s.m_.length = s.alpha_.length)
    (hsr : s.sigma_.length = s.alpha_.length)
    (hsc : ∀ r ∈ s.sigma_, r.length = s.alpha_.length)
    (hpc : ∀ r ∈ s.phi, r.length = s.alpha_.length) :
    (s2.alpha_ = maskL (pruneKeep cfg.threshold_alpha cfg.bias_used s.alpha_) s.alpha_ ∧
     s2.alpha_old =
       maskL (pruneKeep cfg.threshold_alpha cfg.bias_used s.alpha_) s.alpha_old ∧
     s2.gamma = maskL (pruneKeep cfg.threshold_alpha cfg.bias_used s.alpha_) s.gamma ∧
     s2.m_ = maskL (pruneKeep cfg.threshold_alpha cfg.bias_used s.alpha_) s.m_ ∧
     s2.phi = s.phi.map (maskL (pruneKeep cfg.threshold_alpha cfg.bias_used s.alpha_)) ∧
     s2.sigma_ = maskL (pruneKeep cfg.threshold_alpha cfg.bias_used s.alpha_)
       (s.sigma_.map (maskL (pruneKeep cfg.threshold_alpha cfg.bias_used s.alpha_))) ∧
     s2.relevance_ = maskL (pruneKeepRel cfg s) s.relevance_ ∧
     s2.labels = s.labels) ∧
    (s2.alpha_.length =
       ((pruneKeep cfg.threshold_alpha cfg.bias_used s.alpha_).filter id).length ∧
     s2.alpha_old.length =
       ((pruneKeep cfg.threshold_alpha cfg.bias_used s.alpha_).filter id).length ∧
     s2.gamma.length =
       ((pruneKeep cfg.threshold_alpha cfg.bias_used s.alpha_).filter id).length ∧
     s2.m_.length =
       ((pruneKeep cfg.threshold_alpha cfg.bias_used s.alpha_).filter id).length ∧
     s2.sigma_.length =
       ((pruneKeep cfg.threshold_alpha cfg.bias_used s.alpha_).filter id).length ∧
     (∀ r ∈ s2.sigma_, r.length =
       ((pruneKeep cfg.threshold_alpha cfg.bias_used s.alpha_).filter id).length) ∧
     (∀ r ∈ s2.phi, r.length =
       ((pruneKeep cfg.threshold_alpha cfg.bias_used s.alpha_).filter id).length)) := by
  obtain ⟨-, -, -, hs⟩ := prune_some_elim h
  subst hs
  have hklen : (pruneKeep cfg.threshold_alpha cfg.bias_used s.alpha_).length =
      s.alpha_.length := length_pruneKeep _ _ _
  refine ⟨⟨rfl, rfl, rfl, rfl, rfl, rfl, rfl, rfl⟩, ?_, ?_, ?_, ?_, ?_, ?_, ?_⟩
  · exact length_maskL _ _ (le_of_eq hklen)
  · exact length_maskL _ _ (by rw [hklen, hao])
  · exact length_maskL _ _ (by rw [hklen, hg])
  · exact length_maskL _ _ (by rw [hklen, hm])
  · show (maskL _ (s.sigma_.map _)).length = _
    exact length_maskL _ _ (by rw [hklen, List.length_map, hsr])
  · intro r hr
    have hr2 := mem_maskL hr
    obtain ⟨r0, hr0, rfl⟩ := List.mem_map.mp hr2
    exact length_maskL _ _ (by rw [hklen, hsc r0 hr0])
  · intro r hr
    obtain ⟨r0, hr0, rfl⟩ := List.mem_map.mp hr
    exact length_maskL _ _ (by rw [hklen, hpc r0 hr0])

/-- Witness for C4 at `stC4` (mask `[true, false]`, no bias). -/
theorem C4_witness :
    BaseRVM_prune cfgC4 stC4 = some (cfgC4, stC4pr) ∧
    stC4.alpha_old.length = stC4.alpha_.length ∧
    stC4.gamma.length = stC4.alpha_.length ∧
    stC4.m_.length = stC4.alpha_.length ∧
    stC4.sigma_.length = stC4.alpha_.length ∧
    (∀ r ∈ stC4.sigma_, r.length = stC4.alpha_.length) ∧
    (∀ r ∈ stC4.phi, r.length = stC4.alpha_.length) ∧
    ((stC4pr.alpha_ =
       maskL (pruneKeep cfgC4.threshold_alpha cfgC4.bias_used stC4.alpha_) stC4.alpha_ ∧
     stC4pr.alpha_old =
       maskL (pruneKeep cfgC4.threshold_alpha cfgC4.bias_used stC4.alpha_)
         stC4.alpha_old ∧
     stC4pr.gamma =
       maskL (pruneKeep cfgC4.threshold_alpha cfgC4.bias_used stC4.alpha_) stC4.gamma ∧
     stC4pr.m_ =
       maskL (pruneKeep cfgC4.threshold_alpha cfgC4.bias_used stC4.alpha_) stC4.m_ ∧
     stC4pr.phi =
       stC4.phi.map (maskL (pruneKeep cfgC4.threshold_alpha cfgC4.bias_used
         stC4.alpha_)) ∧
     stC4pr.sigma_ = maskL (pruneKeep cfgC4.threshold_alpha cfgC4.bias_used stC4.alpha_)
       (stC4.sigma_.map (maskL (pruneKeep cfgC4.threshold_alpha cfgC4.bias_used
         stC4.alpha_))) ∧
     stC4pr.relevance_ = maskL (pruneKeepRel cfgC4 stC4) stC4.relevance_ ∧
     stC4pr.labels = stC4.labels) ∧
    (stC4pr.alpha_.length =
       ((pruneKeep cfgC4.threshold_alpha cfgC4.bias_used stC4.alpha_).filter id).length ∧
     stC4pr.alpha_old.length =
       ((pruneKeep cfgC4.threshold_alpha cfgC4.bias_used stC4.alpha_).filter id).length ∧
     stC4pr.gamma.length =
       ((pruneKeep cfgC4.threshold_alpha cfgC4.bias_used stC4.alpha_).filter id).length ∧
     stC4pr.m_.length =
       ((pruneKeep cfgC4.threshold_alpha cfgC4.bias_used stC4.alpha_).filter id).length ∧
     stC4pr.sigma_.length =
       ((pruneKeep cfgC4.threshold_alpha cfgC4.bias_used stC4.alpha_).filter id).length ∧
     (∀ r ∈ stC4pr.sigma_, r.length =
       ((pruneKeep cfgC4.threshold_alpha cfgC4.bias_used stC4.alpha_).filter
         id).length) ∧
     (∀ r ∈ stC4pr.phi, r.length =
       ((pruneKeep cfgC4.threshold_alpha cfgC4.bias_used stC4.alpha_).filter
         id).length))) :=
  ⟨by with_unfolding_all decide, by decide, by decide, by decide, by decide, by decide,
   by decide,
   C4_prune_uniform_mask cfgC4 cfgC4 stC4 stC4pr (by with_unfolding_all decide)
     (by decide) (by decide) (by decide) (by decide) (by decide) (by decide)⟩

/-- C4 counterexample: pruning `stC4` (two basis functions, two labels, mask
`[true, false]`) leaves `alpha_` with 1 entry but `labels` with 2: the
claimed invariant `len(alpha) == RelevanceSet.size` fails for the labels,
which the code never prunes. -/
theorem C4_counterexample :
    (BaseRVM_prune cfgC4 stC4).map
      (fun p => (p.2.alpha_.length, p.2.labels.length, p.2.relevance_.length)) =
      some (1, 2, 1) ∧ (1 : ℕ) ≠ 2 :=
  ⟨by with_unfolding_all decide, by decide⟩

/-- C5 (corrected): a successful pruning pass never empties the model — if no
`alpha` entry is below the threshold, index `0` is force-retained, and so is
the bias column when in use — and a completed `fit` loop keeps `alpha_`
nonempty.  But the claimed lower bound of 2 surviving basis functions when
the bias is in use and survives is false: see the counterexample, where the
bias survives as the ONLY retained function. -/
theorem C5_prune_nonempty (cfg cfg2 cfgL cfgL2 : Config) (s s2 sL sL2 : FitState)
    (n fuel i : ℕ)
    (hprune : BaseRVM_prune cfg s = some (cfg2, s2))
    (hloop : fitLoop n fuel i cfgL sL = some (cfgL2, sL2))
    (hneL : sL.alpha_ ≠ []) :
    s2.alpha_ ≠ [] ∧ 0 < s2.alpha_.length ∧ sL2.alpha_ ≠ [] ∧
    ((∀ a ∈ s.alpha_, ¬ a < cfg.threshold_alpha) →
      (pruneKeep cfg.threshold_alpha cfg.bias_used s.alpha_).getD 0 false = true ∧
      (cfg.bias_used = true →
        (pruneKeep cfg.threshold_alpha cfg.bias_used s.alpha_).getD
          ((pruneKeep cfg.threshold_alpha cfg.bias_used s.alpha_).length - 1) false
          = true)) := by
  obtain ⟨hne, -, -, -⟩ := prune_some_elim hprune
  refine ⟨prune_alpha_ne_nil hprune, List.length_pos.mpr (prune_alpha_ne_nil hprune),
    fitLoop_alpha_ne_nil hneL hloop,
    fun hall => pruneKeep_forced cfg.threshold_alpha cfg.bias_used s.alpha_ hne hall⟩

/-- Witness for C5: the forced-retention prune at `stW5` and the one-step fit
run ending at `stW3fin`. -/
theorem C5_witness :
    BaseRVM_prune cfgW5 stW5 = some (cfgW5, stW5) ∧
    fitLoop 1 1 0 cfgW3 (initState cfgW3 [[1]] [1] ["x1"]) = some (cfgW3, stW3fin) ∧
    (initState cfgW3 [[1]] [1] ["x1"]).alpha_ ≠ [] ∧
    (stW5.alpha_ ≠ [] ∧ 0 < stW5.alpha_.length ∧ stW3fin.alpha_ ≠ [] ∧
     ((∀ a ∈ stW5.alpha_, ¬ a < cfgW5.threshold_alpha) →
       (pruneKeep cfgW5.threshold_alpha cfgW5.bias_used stW5.alpha_).getD 0 false
         = true ∧
       (cfgW5.bias_used = true →
         (pruneKeep cfgW5.threshold_alpha cfgW5.bias_used stW5.alpha_).getD
           ((pruneKeep cfgW5.threshold_alpha cfgW5.bias_used stW5.alpha_).length - 1)
           false = true))) :=
  ⟨pruneW5, fitLoopW3, by decide,
   C5_prune_nonempty cfgW5 cfgW5 cfgW3 cfgW3 stW5 stW5
     (initState cfgW3 [[1]] [1] ["x1"]) stW3fin 1 1 0 pruneW5 fitLoopW3 (by decide)⟩

/-- C5 counterexample: fitting `X = [[1,0,1],[0,1,1]]`, `y = [1,1]` with a
bias column and `threshold_alpha = 3` prunes down to the bias alone: the
final model still has `bias_used = true` and a bias value, yet only ONE
retained basis function — the claimed size `≥ 2` fails. -/
theorem C5_counterexample :
    BaseRVM_fit (mkModel cfgC5) [[1,0,1],[0,1,1]] [1,1] ["x1","x2"] = some mdlC5fin ∧
    mdlC5fin.cfg.bias_used = true ∧ mdlC5fin.bias = some (1/2) ∧
    (mdlC5fin.fitted.map fun st => st.alpha_.length) = some 1 ∧ ¬ (2 ≤ 1) :=
  ⟨fitC5_run, rfl, rfl, rfl, by decide⟩

/-- C6 (corrected): the noise-precision update of lines 154-156 has no
guard: when `beta` is not fixed, `beta_` is unconditionally overwritten with
`(n_samples − Σ gamma) / RSS`, whether or not the residual sum of squares is
zero or the numerator positive.  (The hypothesis `rssL s ≠ 0` marks where
numpy floats and ℚ agree exactly; with a zero RSS, numpy produces `inf`/`nan`
rather than keeping `beta` — see the counterexample.) -/
theorem C6_beta_no_guard (n_samples : ℕ) (bf : Bool) (s : FitState)
    (_hrss : rssL s ≠ 0) :
    (bf = false → (betaUpdate n_samples bf s).beta_ =
      ((n_samples : ℚ) - s.gamma.sum) / rssL s) ∧
    (bf = true → betaUpdate n_samples bf s = s) := by
  constructor
  · intro hb
    subst hb
    rfl
  · intro hb
    subst hb
    rfl

/-- Witness for C6 at `stOne` (`RSS = 1`). -/
theorem C6_witness :
    rssL stOne ≠ 0 ∧
    ((false = false → (betaUpdate 1 false stOne).beta_ =
      (((1 : ℕ) : ℚ) - stOne.gamma.sum) / rssL stOne) ∧
     (false = true → betaUpdate 1 false stOne = stOne)) :=
  ⟨by with_unfolding_all decide, C6_beta_no_guard 1 false stOne
    (by with_unfolding_all decide)⟩

/-- C6 counterexample: fitting `X = [[1]]`, `y = [0]` (one iteration, beta
not fixed) reaches the noise update with a residual sum of squares of `0`.
The claim says `beta` is then kept unchanged at its configured value
`cfgC6.beta = 1`, but the code divides anyway and `beta_` is overwritten
(numpy floats give `inf`; the total ℚ division gives `(1 − 1/2) / 0 = 0` —
under either semantics `beta_` is not kept at `1`). -/
theorem C6_counterexample :
    (RVR_posterior (initState cfgC6 [[1]] [0] ["x1"])).map
      (fun s1 => rssL (hyperUpdate s1)) = some 0 ∧
    (BaseRVM_fit (mkModel cfgC6) [[1]] [0] ["x1"]).map
      (fun m => m.fitted.map (fun s => s.beta_)) = some (some 0) ∧
    (0 : ℚ) ≠ cfgC6.beta :=
  ⟨by with_unfolding_all decide, by with_unfolding_all decide,
   by with_unfolding_all decide⟩

/-- C7 (corrected): `predict` with `eval_MSE=True` on a fitted model returns
the mean `Φ··m` together with a parallel vector of length `n'`, whose entry
for sample `j` is `1/beta + (Φ'·sigma·Φ'ᵀ)_{j,0}` — the `j`-th entry of the
FIRST COLUMN (`MSE[:, 0]`), not of the diagonal as claimed; off-diagonal
entries can be negative, so the values are not bounded below by `1/beta`
(see the counterexample). -/
theorem C7_predict_variance (mdl : Model) (s : FitState) (X : QMat) (np k : ℕ)
    (hf : mdl.fitted = some s)
    (hX : WF np k X) (hn : 0 < np) (hk : 0 < k)
    (hsig : WF k k s.sigma_) (hm : s.m_.length = k) :
    ∃ yhat mse,
      RVR_predict mdl X true = .ok (yhat, some mse) ∧
      toVecQ np yhat = (toMatQ np k X).mulVec (toVecQ k s.m_) ∧
      mse.length = np ∧
      ∀ j : Fin np, mse.getD (j : ℕ) 0 =
        1 / s.beta_ +
        (toMatQ np k X * toMatQ k k s.sigma_ * (toMatQ np k X).transpose) j ⟨0, hn⟩ := by
  have hT : WF k np (transposeL X) := WF_transposeL hX hn
  have hin : WF k np (matMulL s.sigma_ (transposeL X)) := WF_matMulL hsig hT hk
  have hMSE : WF np np (matMulL X (matMulL s.sigma_ (transposeL X))) :=
    WF_matMulL hX hin hk
  have hmat : toMatQ np np (matMulL X (matMulL s.sigma_ (transposeL X))) =
      toMatQ np k X * toMatQ k k s.sigma_ * (toMatQ np k X).transpose := by
    rw [toMatQ_matMulL np k np _ _ hX hin hk,
      toMatQ_matMulL k k np _ _ hsig hT hk,
      toMatQ_transposeL np k _ hX hn, Matrix.mul_assoc]
  refine ⟨matVecL X s.m_,
    (matMulL X (matMulL s.sigma_ (transposeL X))).map
      (fun row => 1 / s.beta_ + row.getD 0 0), ?_, ?_, ?_, ?_⟩
  · unfold RVR_predict
    rw [hf]
    rfl
  · exact toVecQ_matVecL np k X s.m_ hX hm
  · rw [List.length_map, hMSE.1]
  · intro j
    have hj : (j : ℕ) < (matMulL X (matMulL s.sigma_ (transposeL X))).length := by
      rw [hMSE.1]; exact j.isLt
    rw [getD_map_of_lt _ _ hj 0 []]
    have : ((matMulL X (matMulL s.sigma_ (transposeL X))).getD (j : ℕ) []).getD 0 0 =
        toMatQ np np (matMulL X (matMulL s.sigma_ (transposeL X))) j ⟨0, hn⟩ := rfl
    rw [this, hmat]

/-- Witness for C7 at the fitted model `mdlW7` with `X = [[1]]`. -/
theorem C7_witness :
    mdlW7.fitted = some stW7 ∧ WF 1 1 [[(1 : ℚ)]] ∧ (0 : ℕ) < 1 ∧
    WF 1 1 stW7.sigma_ ∧ stW7.m_.length = 1 ∧
    (∃ yhat mse,
      RVR_predict mdlW7 [[(1 : ℚ)]] true = .ok (yhat, some mse) ∧
      toVecQ 1 yhat = (toMatQ 1 1 [[(1 : ℚ)]]).mulVec (toVecQ 1 stW7.m_) ∧
      mse.length = 1 ∧
      ∀ j : Fin 1, mse.getD (j : ℕ) 0 =
        1 / stW7.beta_ +
        (toMatQ 1 1 [[(1 : ℚ)]] * toMatQ 1 1 stW7.sigma_ *
          (toMatQ 1 1 [[(1 : ℚ)]]).transpose) j ⟨0, by decide⟩) :=
  ⟨rfl, by decide, by decide, by decide, by decide,
   C7_predict_variance mdlW7 stW7 [[(1 : ℚ)]] 1 1 rfl (by decide) (by decide)
     (by decide) (by decide) (by decide)⟩

/-- C7 counterexample: on the fitted model `mdlC7fin`
(`sigma = diag(1/2, 1/2)`, `beta = 1`), predicting at
`X' = [[1,0],[-1,0]]` returns the variances `[3/2, 1/2]`; the claimed
diagonal value for sample `1` is `1/beta + (X'ΣX'ᵀ)_{1,1} = 3/2`, but the
returned entry is `1/2`, which is also below the claimed lower bound
`1/beta = 1`. -/
theorem C7_counterexample :
    RVR_predict mdlC7fin [[1,0],[-1,0]] true =
      .ok ([1/2, -1/2], some [3/2, 1/2]) ∧
    ((matMulL [[1,0],[-1,0]] (matMulL stC7fin.sigma_
      (transposeL [[1,0],[-1,0]]))).getD 1 []).getD 1 0 = 1/2 ∧
    1 / stC7fin.beta_ + (1/2 : ℚ) = 3/2 ∧ (1/2 : ℚ) ≠ 3/2 ∧
    ¬ (1 / stC7fin.beta_ ≤ (1/2 : ℚ)) :=
  ⟨by with_unfolding_all decide, by with_unfolding_all decide,
   by with_unfolding_all decide, by with_unfolding_all decide,
   by with_unfolding_all decide⟩

/-- C9 (corrected): calling `predict` on a model with no fitted state fails
with Python's `AttributeError` — the first attribute access `self.m_` — and
not with an `UnfittedModelError` (no such class exists in the code), and it
does not return a prediction. -/
theorem C9_unfitted_predict (mdl : Model) (X : QMat) (b : Bool)
    (h : mdl.fitted = none) :
    RVR_predict mdl X b = .error .attributeError ∧
    RVR_predict mdl X b ≠ .error .unfittedModelError ∧
    ∀ r, RVR_predict mdl X b ≠ .ok r := by
  have he : RVR_predict mdl X b = .error .attributeError := by
    unfold RVR_predict
    rw [h]
  refine ⟨he, ?_, ?_⟩
  · rw [he]
    intro hc
    exact PyError.noConfusion (Except.error.inj hc)
  · intro r
    rw [he]
    intro hc
    exact Except.noConfusion hc

/-- Witness for C9 at a freshly constructed model. -/
theorem C9_witness :
    (mkModel defaultConfig).fitted = none ∧
    (RVR_predict (mkModel defaultConfig) [[1]] false = .error .attributeError ∧
     RVR_predict (mkModel defaultConfig) [[1]] false ≠ .error .unfittedModelError ∧
     ∀ r, RVR_predict (mkModel defaultConfig) [[1]] false ≠ .ok r) :=
  ⟨rfl, C9_unfitted_predict (mkModel defaultConfig) [[1]] false rfl⟩

/-- C9 counterexample: on a fresh model, `predict` fails with
`AttributeError`, a different error from the `UnfittedModelError` the claim
requires. -/
theorem C9_counterexample :
    RVR_predict (mkModel defaultConfig) [[1]] false = .error .attributeError ∧
    (Except.error PyError.attributeError : Except PyError (QVec × Option QVec)) ≠
      .error .unfittedModelError := by
  refine ⟨rfl, ?_⟩
  intro hc
  exact PyError.noConfusion (Except.error.inj hc)

/-- C10 (confirmed): when the bias column fails the pruning mask while the
bias is in use, the pruning pass clears the configuration attribute
`bias_used`, and changes no other configuration attribute; `fit` returns the
model carrying its final configuration (so the mutation persists on the
instance and a later `fit`, which reads `mdl.cfg`, starts without a bias
term), every attribute except `bias_used` surviving unchanged and
`bias_used` only ever turning from `true` to `false`. -/
theorem C10_bias_used_mutation (cfg cfg2 : Config) (s s2 : FitState)
    (mdl mdl2 : Model) (X : QMat) (y : QVec) (ls : List String)
    (hprune : BaseRVM_prune cfg s = some (cfg2, s2))
    (hfit : BaseRVM_fit mdl X y ls = some mdl2) :
    (cfg.bias_used = true →
      (pruneKeep cfg.threshold_alpha cfg.bias_used s.alpha_).getD
        ((pruneKeep cfg.threshold_alpha cfg.bias_used s.alpha_).length - 1) false
        = false →
      cfg2.bias_used = false) ∧
    (cfg2.n_iter = cfg.n_iter ∧ cfg2.tol = cfg.tol ∧ cfg2.alpha = cfg.alpha ∧
     cfg2.threshold_alpha = cfg.threshold_alpha ∧ cfg2.beta = cfg.beta ∧
     cfg2.beta_fixed = cfg.beta_fixed ∧ cfg2.verbose = cfg.verbose ∧
     cfg2.verb_freq = cfg.verb_freq) ∧
    (mdl2.cfg.n_iter = mdl.cfg.n_iter ∧ mdl2.cfg.tol = mdl.cfg.tol ∧
     mdl2.cfg.alpha = mdl.cfg.alpha ∧
     mdl2.cfg.threshold_alpha = mdl.cfg.threshold_alpha ∧
     mdl2.cfg.beta = mdl.cfg.beta ∧ mdl2.cfg.beta_fixed = mdl.cfg.beta_fixed ∧
     mdl2.cfg.verbose = mdl.cfg.verbose ∧ mdl2.cfg.verb_freq = mdl.cfg.verb_freq ∧
     (mdl2.cfg.bias_used = true → mdl.cfg.bias_used = true)) := by
  have hpc := prune_config hprune
  obtain ⟨p, hloop, hmdl⟩ := fit_elim hfit
  have hlc := fitLoop_config hloop
  have hc : mdl2.cfg = p.1 := by rw [hmdl]
  refine ⟨?_, ⟨hpc.1, hpc.2.1, hpc.2.2.1, hpc.2.2.2.1, hpc.2.2.2.2.1,
    hpc.2.2.2.2.2.1, hpc.2.2.2.2.2.2.1, hpc.2.2.2.2.2.2.2.1⟩, ?_⟩
  · intro hb hlast
    rw [hpc.2.2.2.2.2.2.2.2, hlast]
    simp
  · rw [hc]
    exact hlc

/-- Witness for C10: the bias-dropping prune at `stW10` (where `bias_used`
goes from `true` to `false`) and the complete fit run ending at `mdlW3fin`. -/
theorem C10_witness :
    BaseRVM_prune cfgW10 stW10 = some (cfgW10pr, stW10pr) ∧
    BaseRVM_fit (mkModel cfgW3) [[1]] [1] ["x1"] = some mdlW3fin ∧
    ((cfgW10.bias_used = true →
      (pruneKeep cfgW10.threshold_alpha cfgW10.bias_used stW10.alpha_).getD
        ((pruneKeep cfgW10.threshold_alpha cfgW10.bias_used stW10.alpha_).length - 1)
        false = false →
      cfgW10pr.bias_used = false) ∧
    (cfgW10pr.n_iter = cfgW10.n_iter ∧ cfgW10pr.tol = cfgW10.tol ∧
     cfgW10pr.alpha = cfgW10.alpha ∧
     cfgW10pr.threshold_alpha = cfgW10.threshold_alpha ∧
     cfgW10pr.beta = cfgW10.beta ∧ cfgW10pr.beta_fixed = cfgW10.beta_fixed ∧
     cfgW10pr.verbose = cfgW10.verbose ∧ cfgW10pr.verb_freq = cfgW10.verb_freq) ∧
    (mdlW3fin.cfg.n_iter = (mkModel cfgW3).cfg.n_iter ∧
     mdlW3fin.cfg.tol = (mkModel cfgW3).cfg.tol ∧
     mdlW3fin.cfg.alpha = (mkModel cfgW3).cfg.alpha ∧
     mdlW3fin.cfg.threshold_alpha = (mkModel cfgW3).cfg.threshold_alpha ∧
     mdlW3fin.cfg.beta = (mkModel cfgW3).cfg.beta ∧
     mdlW3fin.cfg.beta_fixed = (mkModel cfgW3).cfg.beta_fixed ∧
     mdlW3fin.cfg.verbose = (mkModel cfgW3).cfg.verbose ∧
     mdlW3fin.cfg.verb_freq = (mkModel cfgW3).cfg.verb_freq ∧
     (mdlW3fin.cfg.bias_used = true → (mkModel cfgW3).cfg.bias_used = true))) ∧
    cfgW10pr.bias_used = false ∧ cfgW10.bias_used = true :=
  ⟨pruneW10, fitW3_run,
   C10_bias_used_mutation cfgW10 cfgW10pr stW10 stW10pr (mkModel cfgW3) mdlW3fin
     [[1]] [1] ["x1"] pruneW10 fitW3_run,
   rfl, rfl⟩

